import Mathlib

/-!
The module `dnn_superres`: depth-to-space layer and upsampling pipeline.

A shallow embedding of `modules/dnn_superres/src/dnn_superres.cpp`.

Modelling conventions.

* C++ `int` quantities (tensor dimensions, loop counters, flat indices) are natural numbers:
  `cv::Mat` dimensions and the loop counters are never negative. Every `int` product, sum and
  increment of `getMemoryShapes` and `forward` goes through `asInt`: a result above `INT_MAX`
  is a signed overflow, which is undefined behaviour.
* A raw `float*` buffer is a `List α` for an arbitrary element type `α`: the layer only copies
  elements.
* A result `none` stands for a call that does not return normally: a `cv::Exception`
  (`CV_Assert`) or undefined behaviour (signed overflow, integer division by zero, an access
  outside a buffer).
* `std::cout` is modelled by the list of strings a function writes.
* The OpenCV core and dnn primitives that the module calls (`convertTo`, `cvtColor`, `split`,
  `resize`, `merge`, `blobFromImage`, `imagesFromBlob`, `Net`) are not part of the module; they
  are taken as parameters (`Cv`). Where a property depends on what a primitive does, its
  behaviour is a contract modelled from the spec (`CvContract`, `ConvertContract`).
-/

namespace DnnSuperRes

/-! ## The type `int` -/

/-- The largest value of a 32-bit `int`. -/
def INT_MAX : Nat := 2147483647

/-- The result of an `int` operation whose mathematical value is the natural number `n`:
the value itself up to `INT_MAX`, undefined (signed overflow) above. -/
def asInt (n : Nat) : Option Nat := if n ≤ INT_MAX then some n else none

/-! ## Tensors as the depth-to-space layer sees them -/

/-- A `cv::Mat` blob: its dimension vector `size` and its contiguous row-major buffer `data`. -/
structure Mat (α : Type) where
  size : List Nat
  data : List α
deriving DecidableEq, Repr

/-- Row-major read of element `[0, ch, y, x]` of a 4-dimensional blob. -/
def Mat.elemAt {α : Type} (m : Mat α) (ch y x : Nat) : Option α := do
  let h ← m.size[2]?
  let w ← m.size[3]?
  m.data[(ch * h + y) * w + x]?

namespace DepthToSpace

/-- The function `DepthToSpace::getMemoryShapes`. The unnamed `int` and internals arguments are
unused by the source. The result carries the new `outputs` vector and the returned `bool`.

`static_cast<int>(sqrt(n))` on a non-negative `int` is the integer square root (IEEE `sqrt` is
correctly rounded and every `int` is an exact `double`), and
`static_cast<int>(c / pow(scale, 2))` is the integer quotient when `scale ≥ 1`; with
`scale = 0` the quotient is infinite or NaN and its conversion to `int` is undefined. The
products `scale * inputs[0][2]` and `scale * inputs[0][3]` are `int` products. -/
def getMemoryShapes (inputs : List (List Nat)) : Option (List (List Nat) × Bool) := do
  let in0 ← inputs[0]?
  let c ← in0[1]?
  let scale := if c = 4 ∨ c = 9 ∨ c = 16 then Nat.sqrt c else Nat.sqrt (c / 3)
  let n ← in0[0]?
  if scale = 0 then none
  else
    let h ← in0[2]?
    let outHeight ← asInt (scale * h)
    let w ← in0[3]?
    let outWidth ← asInt (scale * w)
    let outShape := [n, c / scale ^ 2, outHeight, outWidth]
    some (List.replicate 4 outShape, false)

/-- The body of the innermost loop of `DepthToSpace::forward`, on the state
`(outData, count)`: `outData[count++] = inpData[index]`. The divisions by `scale` are undefined
for `scale = 0`, every `int` product and sum and the increment of `count` for a result above
`INT_MAX`, the read for an `index` outside `inpData` and the write for a `count` outside
`outData`; `floor` of the integer quotient is the quotient. -/
def forwardStep {α : Type} (inpData : List α)
    (numChannels scale inpHeight inpWidth ch y : Nat)
    (st : List α × Nat) (x : Nat) : Option (List α × Nat) :=
  if scale = 0 then none
  else do
    let x_coord := y / scale
    let y_coord := x / scale
    let cs ← asInt (numChannels * scale)
    let csy ← asInt (cs * (y % scale))
    let cx ← asInt (numChannels * (x % scale))
    let sum ← asInt (csy + cx)
    let c_coord ← asInt (sum + ch)
    let ch_rows ← asInt (c_coord * inpHeight)
    let row ← asInt (ch_rows + x_coord)
    let row_start ← asInt (row * inpWidth)
    let index ← asInt (row_start + y_coord)
    let v ← inpData[index]?
    if st.2 < st.1.length then do
      let count ← asInt (st.2 + 1)
      some (st.1.set st.2 v, count)
    else none

/-- The three nested loops of `DepthToSpace::forward` over `ch`, `y` and `x`. -/
def forwardLoops {α : Type} (inpData : List α)
    (numChannels scale inpHeight inpWidth outHeight outWidth : Nat)
    (st0 : List α × Nat) : Option (List α × Nat) :=
  (List.range numChannels).foldlM (fun st ch =>
    (List.range outHeight).foldlM (fun st y =>
      (List.range outWidth).foldlM
        (forwardStep inpData numChannels scale inpHeight inpWidth ch y) st) st) st0

/-- The function `DepthToSpace::forward`: reads `inputs[0]`, writes into `outputs[0]`. The
quotient `outHeight / inpHeight` is undefined for `inpHeight = 0`. -/
def forward {α : Type} (inputs outputs : List (Mat α)) : Option (List (Mat α)) := do
  let inp ← inputs[0]?
  let out ← outputs[0]?
  let inpHeight ← inp.size[2]?
  let inpWidth ← inp.size[3]?
  let numChannels ← out.size[1]?
  let outHeight ← out.size[2]?
  let outWidth ← out.size[3]?
  if inpHeight = 0 then none
  else
    let scale := outHeight / inpHeight
    let st ← forwardLoops inp.data numChannels scale inpHeight inpWidth outHeight outWidth
      (out.data, 0)
    some (outputs.set 0 ⟨out.size, st.1⟩)

/-- The value of `index` in the loop body of `forward` at `(ch, y, x)`. -/
def srcIndex (numChannels scale inpHeight inpWidth ch y x : Nat) : Nat :=
  (((numChannels * scale * (y % scale) + numChannels * (x % scale) + ch) * inpHeight)
    + y / scale) * inpWidth + x / scale

/-- Every `int` value computed by the loop body of `forward` at `(ch, y, x)` is at most
`INT_MAX`. -/
def StepFits (numChannels scale inpHeight inpWidth ch y x : Nat) : Prop :=
  numChannels * scale ≤ INT_MAX ∧
  numChannels * scale * (y % scale) + numChannels * (x % scale) + ch ≤ INT_MAX ∧
  (numChannels * scale * (y % scale) + numChannels * (x % scale) + ch) * inpHeight
    ≤ INT_MAX ∧
  (numChannels * scale * (y % scale) + numChannels * (x % scale) + ch) * inpHeight
    + y / scale ≤ INT_MAX ∧
  ((numChannels * scale * (y % scale) + numChannels * (x % scale) + ch) * inpHeight
    + y / scale) * inpWidth ≤ INT_MAX ∧
  srcIndex numChannels scale inpHeight inpWidth ch y x ≤ INT_MAX

/-- Effect of a block of `n` consecutive writes: the counter advances by `n`, the buffer keeps
its length, the `j`-th written cell holds `inp[g j]` and every other cell is unchanged. -/
def Writes {α : Type} (inp : List α) (g : Nat → Nat) (n : Nat) (s0 s : List α × Nat) : Prop :=
  s.2 = s0.2 + n ∧ s.1.length = s0.1.length ∧
  ∀ k, s.1[k]? = if s0.2 ≤ k ∧ k < s0.2 + n then inp[g (k - s0.2)]? else s0.1[k]?

end DepthToSpace

/-! ## The upsampling pipeline -/

/-- The image types the module distinguishes (`Mat::type()`). -/
inductive MatType where
  | CV_8UC1 | CV_8UC3 | CV_32FC1 | CV_32FC3 | other
deriving DecidableEq, Repr

/-- The target depths passed to `convertTo`. -/
inductive Depth where
  | CV_8U | CV_32F
deriving DecidableEq, Repr

/-- The colour conversions passed to `cvtColor`. -/
inductive ColorConversionCode where
  | COLOR_BGR2YCrCb | COLOR_YCrCb2BGR
deriving DecidableEq, Repr

/-- A `cv::Scalar`: four doubles. -/
abbrev Scalar := List Float

/-- The OpenCV primitives used by the module, over an image type `M` and a network type `N`.
Each primitive returns `none` when it throws. `resize m fx fy` is
`cv::resize(m, dst, cv::Size(), fx, fy)` with the integer scale of the caller;
`blobFromImage m s mean` is `dnn::blobFromImage(m, blob, s, Size(), mean)`; `setInput`,
`forward` and `forwardNames` return the state of the network after the call. -/
structure Cv (M N : Type) where
  emptyMat : M
  type : M → MatType
  rows : M → Nat
  cols : M → Nat
  convertTo : M → Depth → Float → Option M
  cvtColor : M → ColorConversionCode → Option M
  split : M → Option (List M)
  resize : M → Int → Int → Option M
  merge : List M → Option M
  addScalar : M → Scalar → Option M
  blobFromImage : M → Float → Scalar → Option M
  imagesFromBlob : M → Option (List M)
  netEmpty : N → Bool
  setInput : N → M → Option N
  forward : N → Option (M × N)
  forwardNames : N → List String → Option (List M × N)

/-- The fields of `DnnSuperResImpl`: the network, the algorithm name and the scale. -/
structure DnnSuperResImpl (N : Type) where
  net : N
  alg : String
  sc : Int
deriving DecidableEq

/-- The function `DnnSuperResImpl::preprocess_YCrCb`; returns the new `outImg` and what was
printed. -/
def preprocess_YCrCb {M N : Type} (cv : Cv M N) (inpImg outImg : M) :
    Option (M × List String) :=
  if cv.type inpImg = MatType.CV_8UC1 then do
    let outImg ← cv.convertTo inpImg Depth.CV_32F (1.0 / 255.0)
    some (outImg, [])
  else if cv.type inpImg = MatType.CV_32FC1 then do
    let outImg ← cv.convertTo inpImg Depth.CV_32F (1.0 / 255.0)
    some (outImg, [])
  else if cv.type inpImg = MatType.CV_32FC3 then do
    let img_float ← cv.convertTo inpImg Depth.CV_32F (1.0 / 255.0)
    let outImg ← cv.cvtColor img_float ColorConversionCode.COLOR_BGR2YCrCb
    some (outImg, [])
  else if cv.type inpImg = MatType.CV_8UC3 then do
    let ycrcb ← cv.cvtColor inpImg ColorConversionCode.COLOR_BGR2YCrCb
    let outImg ← cv.convertTo ycrcb Depth.CV_32F (1.0 / 255.0)
    some (outImg, [])
  else
    some (outImg, ["Not supported image type!\n"])

/-- The call `split(m, mv)` into a local array `Mat mv[3]` of default-constructed images:
the channels written by `split`, then the untouched entries. Writing more than three
channels overruns the array. -/
def splitInto3 {M N : Type} (cv : Cv M N) (m : M) : Option (List M) := do
  let mv ← cv.split m
  if mv.length ≤ 3 then some (mv ++ List.replicate (3 - mv.length) cv.emptyMat) else none

/-- The function `DnnSuperResImpl::reconstruct_YCrCb`; returns the new `outImg` and what was
printed. -/
def reconstruct_YCrCb {M N : Type} (cv : Cv M N) (inpImg origImg outImg : M) (scale : Int) :
    Option (M × List String) :=
  if cv.type origImg = MatType.CV_32FC3 then do
    let orig_channels ← splitInto3 cv origImg
    let Cr ← cv.resize (orig_channels.getD 1 cv.emptyMat) scale scale
    let Cb ← cv.resize (orig_channels.getD 2 cv.emptyMat) scale scale
    let channels := [inpImg, Cr, Cb]
    let merged_img ← cv.merge channels
    let merged_8u_img ← cv.convertTo merged_img Depth.CV_8U 255.0
    let outImg ← cv.cvtColor merged_8u_img ColorConversionCode.COLOR_YCrCb2BGR
    some (outImg, [])
  else if cv.type origImg = MatType.CV_32FC1 then do
    let outImg ← cv.convertTo inpImg Depth.CV_8U 255.0
    some (outImg, [])
  else
    some (outImg, ["Not supported image type!\n"])

/-- The function `DnnSuperResImpl::upsample`; returns the new `img_new`, the object after the
call and what was printed. -/
def upsample {M N : Type} (cv : Cv M N) (self : DnnSuperResImpl N) (img img_new : M) :
    Option (M × DnnSuperResImpl N × List String) :=
  if ¬ cv.netEmpty self.net then
    if self.alg = "espcn" ∨ self.alg = "lapsrn" ∨ self.alg = "fsrcnn" then do
      let (preproc_img, cout1) ← preprocess_YCrCb cv img cv.emptyMat
      let ycbcr_channels ← splitInto3 cv preproc_img
      let Y := ycbcr_channels.getD 0 cv.emptyMat
      let blob ← cv.blobFromImage Y 1.0 [0, 0, 0, 0]
      let net1 ← cv.setInput self.net blob
      let (blob_output, net2) ← cv.forward net1
      let model_outs ← cv.imagesFromBlob blob_output
      let out_img ← model_outs[0]?
      let (img_new, cout2) ← reconstruct_YCrCb cv out_img preproc_img img_new self.sc
      some (img_new, ⟨net2, self.alg, self.sc⟩, cout1 ++ cout2)
    else if self.alg = "edsr" then do
      let mean : Scalar := [103.1545782, 111.561547, 114.35629928, 0]
      let float_img ← cv.convertTo img Depth.CV_32F 1.0
      let blob ← cv.blobFromImage float_img 1.0 mean
      let net1 ← cv.setInput self.net blob
      let (blob_output, net2) ← cv.forward net1
      let model_outs ← cv.imagesFromBlob blob_output
      let img_new ← model_outs[0]?
      let img_new ← cv.addScalar img_new [103.1545782, 111.561547, 114.35629928, 0]
      let img_new ← cv.convertTo img_new Depth.CV_8U 1.0
      some (img_new, ⟨net2, self.alg, self.sc⟩, [])
    else
      some (img_new, self, [])
  else
    some (img_new, self, ["Model not specified. Please set model via setModel(). \n"])

/-- The body of the loop of `upsampleMultioutput`, on the state `(imgs_new, printed)`. -/
def multioutputStep {M N : Type} (cv : Cv M N) (outputs_blobs : List M) (preproc_img : M)
    (scale_factors : List Int) (st : List M × List String) (i : Nat) :
    Option (List M × List String) := do
  let blob_i ← outputs_blobs[i]?
  let model_outs ← cv.imagesFromBlob blob_i
  let out_img ← model_outs[0]?
  let scale_i ← scale_factors[i]?
  let (reconstructed, cout) ← reconstruct_YCrCb cv out_img preproc_img cv.emptyMat scale_i
  some (st.1 ++ [reconstructed], st.2 ++ cout)

/-- The function `DnnSuperResImpl::upsampleMultioutput`; returns the new `imgs_new`, the object
after the call and what was printed. A failed `CV_Assert` throws. -/
def upsampleMultioutput {M N : Type} (cv : Cv M N) (self : DnnSuperResImpl N) (img : M)
    (imgs_new : List M) (scale_factors : List Int) (node_names : List String) :
    Option (List M × DnnSuperResImpl N × List String) :=
  if scale_factors.length ≠ node_names.length then none
  else if scale_factors.isEmpty then none
  else if node_names.isEmpty then none
  else if self.alg ≠ "lapsrn" then
    some (imgs_new, self, ["Only LapSRN support multiscale upsampling for now!\n"])
  else if ¬ cv.netEmpty self.net then
    if self.alg = "lapsrn" then do
      let orig := img
      let (preproc_img, cout1) ← preprocess_YCrCb cv orig cv.emptyMat
      let ycbcr_channels ← splitInto3 cv preproc_img
      let Y := ycbcr_channels.getD 0 cv.emptyMat
      let blob ← cv.blobFromImage Y 1.0 [0, 0, 0, 0]
      let net1 ← cv.setInput self.net blob
      let (outputs_blobs, net2) ← cv.forwardNames net1 node_names
      let (imgs_new, cout2) ← (List.range scale_factors.length).foldlM
        (multioutputStep cv outputs_blobs preproc_img scale_factors) (imgs_new, [])
      some (imgs_new, ⟨net2, self.alg, self.sc⟩, cout1 ++ cout2)
    else
      some (imgs_new, self, [])
  else
    some (imgs_new, self, ["Model not specified. Please set model via setModel(). \n"])

/-- Modelled from the spec: the behaviour of the OpenCV core primitives `split`, `resize` and
`merge`, which `reconstruct_YCrCb` calls and which are not part of the module. `split` of a
three-channel image yields three planes of the size of the image; `resize` by the factors
`fx`, `fy` yields an image of `fx` times the width and `fy` times the height ("resample its
chroma channels by scaleFactor"); `merge` accepts only planes of one common size ("must agree
on this size, or the merge step fails"). -/
structure CvContract {M N : Type} (cv : Cv M N) : Prop where
  split_length : ∀ m mv, cv.type m = MatType.CV_32FC3 → cv.split m = some mv → mv.length = 3
  split_size : ∀ m mv c, cv.split m = some mv → c ∈ mv →
    cv.rows c = cv.rows m ∧ cv.cols c = cv.cols m
  resize_size : ∀ m fx fy r, cv.resize m fx fy = some r →
    (cv.rows r : Int) = fy * cv.rows m ∧ (cv.cols r : Int) = fx * cv.cols m
  merge_size : ∀ mv r, cv.merge mv = some r →
    ∀ a, a ∈ mv → ∀ b, b ∈ mv → cv.rows a = cv.rows b ∧ cv.cols a = cv.cols b

/-! ## A header-level instance of the primitives

Images are represented by their type and size only, and the network by a table of the
upscaling factor of each output node. The instance is used to evaluate the pipeline on
concrete inputs. -/

/-- An image header: type, rows, columns. -/
structure Img where
  type : MatType
  rows : Nat
  cols : Nat
deriving DecidableEq, Repr

/-- A network: whether a model is loaded, the factor of the default output, the factor of each
named output node, the current input blob and the number of forward passes run so far. -/
structure Engine where
  loaded : Bool
  scale : Nat
  nodes : List (String × Nat)
  input : Option Img
  passes : Nat
deriving DecidableEq, Repr

/-- Number of channels of an image type. -/
def channelsOf : MatType → Nat
  | MatType.CV_8UC1 => 1
  | MatType.CV_32FC1 => 1
  | MatType.CV_8UC3 => 3
  | MatType.CV_32FC3 => 3
  | MatType.other => 0

/-- The type with the same number of channels and the given depth. -/
def withDepth : MatType → Depth → MatType
  | MatType.CV_8UC1, Depth.CV_8U => MatType.CV_8UC1
  | MatType.CV_8UC1, Depth.CV_32F => MatType.CV_32FC1
  | MatType.CV_32FC1, Depth.CV_8U => MatType.CV_8UC1
  | MatType.CV_32FC1, Depth.CV_32F => MatType.CV_32FC1
  | MatType.CV_8UC3, Depth.CV_8U => MatType.CV_8UC3
  | MatType.CV_8UC3, Depth.CV_32F => MatType.CV_32FC3
  | MatType.CV_32FC3, Depth.CV_8U => MatType.CV_8UC3
  | MatType.CV_32FC3, Depth.CV_32F => MatType.CV_32FC3
  | MatType.other, _ => MatType.other

/-- The single-channel type of the same depth. -/
def planeOf : MatType → MatType
  | MatType.CV_8UC3 => MatType.CV_8UC1
  | MatType.CV_32FC3 => MatType.CV_32FC1
  | t => t

/-- The three-channel type of the same depth. -/
def packedOf : MatType → MatType
  | MatType.CV_8UC1 => MatType.CV_8UC3
  | MatType.CV_32FC1 => MatType.CV_32FC3
  | t => t

/-- Header-level `merge`: three single-channel planes of one type and one size. -/
def headerMerge : List Img → Option Img
  | [a, b, c] =>
    if channelsOf a.type = 1 ∧ b.type = a.type ∧ c.type = a.type ∧
        b.rows = a.rows ∧ c.rows = a.rows ∧ b.cols = a.cols ∧ c.cols = a.cols then
      some ⟨packedOf a.type, a.rows, a.cols⟩
    else none
  | _ => none

/-- Header-level `resize` by integer factors. -/
def headerResize (m : Img) (fx fy : Int) : Option Img :=
  if 0 < fx ∧ 0 < fy ∧ 0 < m.rows ∧ 0 < m.cols then
    some ⟨m.type, fy.toNat * m.rows, fx.toNat * m.cols⟩
  else none

/-- Header-level forward pass to a list of named output nodes. -/
def headerForwardNames (e : Engine) (names : List String) : Option (List Img × Engine) := do
  let b ← e.input
  let outs ← names.mapM (fun nm =>
    (e.nodes.lookup nm).map (fun k => Img.mk b.type (k * b.rows) (k * b.cols)))
  some (outs, ⟨e.loaded, e.scale, e.nodes, e.input, e.passes + 1⟩)

/-- The header-level instance of the primitives. -/
def headerCv : Cv Img Engine where
  emptyMat := ⟨MatType.CV_8UC1, 0, 0⟩
  type := fun m => m.type
  rows := fun m => m.rows
  cols := fun m => m.cols
  convertTo := fun m d _ => some ⟨withDepth m.type d, m.rows, m.cols⟩
  cvtColor := fun m _ => if channelsOf m.type = 3 then some m else none
  split := fun m =>
    if channelsOf m.type = 3 then some (List.replicate 3 ⟨planeOf m.type, m.rows, m.cols⟩)
    else some [m]
  resize := headerResize
  merge := headerMerge
  addScalar := fun m _ => some m
  blobFromImage := fun m _ _ => some m
  imagesFromBlob := fun b => some [b]
  netEmpty := fun e => !e.loaded
  setInput := fun e b => some ⟨e.loaded, e.scale, e.nodes, some b, e.passes⟩
  forward := fun e => e.input.map (fun b =>
    (Img.mk b.type (e.scale * b.rows) (e.scale * b.cols),
      Engine.mk e.loaded e.scale e.nodes e.input (e.passes + 1)))
  forwardNames := headerForwardNames

/-! ## The pixels of `convertTo` -/

/-- Modelled from the spec: the effect of `cv::Mat::convertTo`, which is not part of the
module, on the pixels of a single-channel image. `pix m i` is the value of pixel `i` of `m`
and `fl` rounds a real number to a 32-bit float, with a relative error of at most `2⁻²⁴`.
`convertTo` returns an image of the requested depth and of the same size. Towards `CV_32F`
with the factor `1.0 / 255.0` it multiplies each sample by the float nearest to `1/255`
("scale integer samples to the float range [0,1] by dividing by 255"). Towards `CV_8U` with
the factor `255.0` it multiplies each sample by `255`, rounds the product to a nearest
integer and saturates it to `0..255` ("rescale from [0,1] float to 8-bit range"). -/
structure ConvertContract {M N : Type} (cv : Cv M N) (pix : M → Nat → ℚ) (fl : ℚ → ℚ) :
    Prop where
  fl_error : ∀ q, |fl q - q| ≤ |q| / 2 ^ 24
  returns : ∀ m d a, ∃ r, cv.convertTo m d a = some r
  shape : ∀ m d a r, cv.convertTo m d a = some r →
    cv.type r = withDepth (cv.type m) d ∧ cv.rows r = cv.rows m ∧ cv.cols r = cv.cols m
  to32F : ∀ m r i, cv.type m = MatType.CV_8UC1 →
    cv.convertTo m Depth.CV_32F (1.0 / 255.0) = some r → i < cv.rows m * cv.cols m →
    pix r i = fl (pix m i * fl (1 / 255))
  to8U : ∀ m r i, cv.type m = MatType.CV_32FC1 →
    cv.convertTo m Depth.CV_8U 255.0 = some r → i < cv.rows m * cv.cols m →
    ∃ n : ℤ, |(n : ℚ) - fl (pix m i * 255)| ≤ 1 / 2 ∧ pix r i = max 0 (min 255 (n : ℚ))

/-- A single-channel image with its samples. -/
structure Gray where
  depth : Depth
  rows : Nat
  cols : Nat
  data : List ℚ

/-- The sample `i` of a single-channel image. -/
def grayPix (m : Gray) (i : Nat) : ℚ := m.data.getD i 0

/-- The conversion of one sample between the two depths, in exact arithmetic. -/
def graySample : Depth → Depth → ℚ → ℚ
  | Depth.CV_8U, Depth.CV_32F => fun v => v * (1 / 255)
  | Depth.CV_32F, Depth.CV_8U => fun v => max 0 (min 255 ((round (v * 255) : ℤ) : ℚ))
  | _, _ => fun v => v

/-- A pixel-level instance of the primitives for single-channel images and exact arithmetic.
Only `convertTo` is interpreted on the samples; it does not inspect its factor, a `double`, and
multiplies by `1/255` towards `CV_32F` and by `255` towards `CV_8U`. Three-channel images are
not represented, so `cvtColor` and `merge` fail; `resize` is not interpreted and no network is
loaded. -/
def grayCv : Cv Gray Unit where
  emptyMat := ⟨Depth.CV_8U, 0, 0, []⟩
  type := fun m => withDepth MatType.CV_8UC1 m.depth
  rows := fun m => m.rows
  cols := fun m => m.cols
  convertTo := fun m d _ => some ⟨d, m.rows, m.cols, m.data.map (graySample m.depth d)⟩
  cvtColor := fun _ _ => none
  split := fun m => some [m]
  resize := fun _ _ _ => none
  merge := fun _ => none
  addScalar := fun _ _ => none
  blobFromImage := fun m _ _ => some m
  imagesFromBlob := fun b => some [b]
  netEmpty := fun _ => true
  setInput := fun _ _ => none
  forward := fun _ => none
  forwardNames := fun _ _ => none

/-! ## Loop invariants -/

/-- Invariant rule for a loop `for (i = 0; i < n; i++)` whose body may fail. -/
theorem foldlM_range_inv {σ : Type} (f : σ → Nat → Option σ) (P : Nat → σ → Prop)
    (s0 : σ) :
    ∀ (n : Nat), P 0 s0 →
      (∀ i, i < n → ∀ s, P i s → ∃ s', f s i = some s' ∧ P (i + 1) s') →
      ∃ s', (List.range n).foldlM f s0 = some s' ∧ P n s' := by
  intro n
  induction n with
  | zero => intro h0 _; exact ⟨s0, by simp, h0⟩
  | succ n ih =>
    intro h0 hstep
    obtain ⟨s, hs, hP⟩ := ih h0 (fun i hi s hp => hstep i (Nat.lt_succ_of_lt hi) s hp)
    obtain ⟨s', hs', hP'⟩ := hstep n (Nat.lt_succ_self n) s hP
    refine ⟨s', ?_, hP'⟩
    rw [List.range_succ, List.foldlM_append, hs]
    simp [hs']

/-- A loop whose body fails in round `i` fails. -/
theorem foldlM_range_fail {σ : Type} (f : σ → Nat → Option σ) (s0 s : σ) (i : Nat)
    (hpre : (List.range i).foldlM f s0 = some s) (hfail : f s i = none) :
    ∀ n, i < n → (List.range n).foldlM f s0 = none := by
  intro n
  induction n with
  | zero => intro h; omega
  | succ n ih =>
    intro h
    rw [List.range_succ, List.foldlM_append]
    rcases Nat.lt_or_ge i n with h1 | h1
    · rw [ih h1]; rfl
    · have : n = i := by omega
      subst this
      rw [hpre]
      simp [hfail]

/-- An `int` result up to `INT_MAX` is defined. -/
theorem asInt_of_le {n : Nat} (h : n ≤ INT_MAX) : asInt n = some n := by
  simp [asInt, h]

/-- An `int` result above `INT_MAX` is undefined. -/
theorem asInt_of_gt {n : Nat} (h : INT_MAX < n) : asInt n = none := by
  have : ¬ n ≤ INT_MAX := by omega
  simp [asInt, this]

/-- An `int` result is undefined or the value itself. -/
theorem asInt_cases (n : Nat) : asInt n = none ∨ asInt n = some n := by
  unfold asInt
  split
  · exact Or.inr rfl
  · exact Or.inl rfl

namespace DepthToSpace

/-- The effect of a block of writes depends on the index map only below `n`. -/
theorem Writes.congr {α : Type} {inp : List α} {g : Nat → Nat} {n : Nat}
    {s0 s : List α × Nat} (h : Writes inp g n s0 s) (g' : Nat → Nat)
    (hg : ∀ j, j < n → g j = g' j) : Writes inp g' n s0 s := by
  obtain ⟨h1, h2, h3⟩ := h
  refine ⟨h1, h2, fun k => ?_⟩
  rw [h3 k]
  split
  · rename_i hk
    rw [hg (k - s0.2) (by omega)]
  · rfl

/-- A loop of `n` rounds, each writing a block of `m` cells, writes a block of `n·m` cells. -/
theorem writes_loop {α : Type} (inp : List α)
    (body : Nat → List α × Nat → Option (List α × Nat)) (g : Nat → Nat → Nat) (m n : Nat)
    (hbody : ∀ i, i < n → ∀ s : List α × Nat, s.2 + m ≤ s.1.length → s.2 + m ≤ INT_MAX →
      ∃ s', body i s = some s' ∧ Writes inp (g i) m s s')
    (s0 : List α × Nat) (hroom : s0.2 + n * m ≤ s0.1.length)
    (hcap : s0.2 + n * m ≤ INT_MAX) :
    ∃ s, (List.range n).foldlM (fun st i => body i st) s0 = some s ∧
      Writes inp (fun j => g (j / m) (j % m)) (n * m) s0 s := by
  apply foldlM_range_inv (fun st i => body i st)
    (fun i s => Writes inp (fun j => g (j / m) (j % m)) (i * m) s0 s) s0 n
  · refine ⟨by simp, rfl, fun k => ?_⟩
    have : ¬ (s0.2 ≤ k ∧ k < s0.2 + 0 * m) := by omega
    rw [if_neg this]
  · intro i hi s ⟨h1, h2, h3⟩
    have him : (i + 1) * m ≤ n * m := Nat.mul_le_mul_right m hi
    have hexp : (i + 1) * m = i * m + m := by ring
    obtain ⟨s', hs', w1, w2, w3⟩ := hbody i hi s (by omega) (by omega)
    refine ⟨s', hs', by omega, by omega, fun k => ?_⟩
    rw [w3 k, h3 k]
    by_cases hk : s.2 ≤ k ∧ k < s.2 + m
    · have hm : 0 < m := by omega
      have hk' : s0.2 ≤ k ∧ k < s0.2 + (i + 1) * m := by omega
      rw [if_pos hk, if_pos hk']
      have e : k - s0.2 = (k - s.2) + m * i := by
        have : i * m = m * i := Nat.mul_comm _ _
        omega
      have hlt : k - s.2 < m := by omega
      have e1 : (k - s0.2) / m = i := by
        rw [e, Nat.add_mul_div_left _ _ hm, Nat.div_eq_of_lt hlt]; simp
      have e2 : (k - s0.2) % m = k - s.2 := by
        rw [e, Nat.add_mul_mod_self_left, Nat.mod_eq_of_lt hlt]
      simp only [e1, e2]
    · rw [if_neg hk]
      by_cases hk2 : s0.2 ≤ k ∧ k < s0.2 + i * m
      · have hk' : s0.2 ≤ k ∧ k < s0.2 + (i + 1) * m := by omega
        rw [if_pos hk2, if_pos hk']
      · have hk' : ¬ (s0.2 ≤ k ∧ k < s0.2 + (i + 1) * m) := by omega
        rw [if_neg hk2, if_neg hk']

/-- One execution of the loop body writes one cell, read at `srcIndex`, when no `int` value
overflows. -/
theorem forwardStep_writes {α : Type} (inp : List α) (nc scale ih iw ch y x : Nat)
    (hs : scale ≠ 0) (hfit : StepFits nc scale ih iw ch y x)
    (hidx : srcIndex nc scale ih iw ch y x < inp.length)
    (s : List α × Nat) (hroom : s.2 + 1 ≤ s.1.length) (hcap : s.2 + 1 ≤ INT_MAX) :
    ∃ s', forwardStep inp nc scale ih iw ch y s x = some s' ∧
      Writes inp (fun _ => srcIndex nc scale ih iw ch y x) 1 s s' := by
  have hget : inp[srcIndex nc scale ih iw ch y x]? =
      some (inp[srcIndex nc scale ih iw ch y x]) := List.getElem?_eq_getElem hidx
  have hlt : s.2 < s.1.length := by omega
  obtain ⟨f1, f2, f3, f4, f5, f6⟩ := hfit
  have g1 : nc * scale * (y % scale) ≤ INT_MAX := by omega
  have g2 : nc * (x % scale) ≤ INT_MAX := by omega
  have g3 : nc * scale * (y % scale) + nc * (x % scale) ≤ INT_MAX := by omega
  refine ⟨(s.1.set s.2 (inp[srcIndex nc scale ih iw ch y x]), s.2 + 1), ?_, rfl, by simp,
    fun k => ?_⟩
  · unfold forwardStep
    unfold srcIndex at hget f6
    simp only [hs, if_false, Option.bind_eq_bind, asInt_of_le f1, asInt_of_le g1,
      asInt_of_le g2, asInt_of_le g3, asInt_of_le f2, asInt_of_le f3, asInt_of_le f4,
      asInt_of_le f5, asInt_of_le f6, asInt_of_le hcap, Option.some_bind, hget, hlt, if_true]
    rfl
  · simp only [List.getElem?_set]
    by_cases hk : s.2 = k
    · subst hk
      simp [hlt, hget]
    · have : ¬ (s.2 ≤ k ∧ k < s.2 + 1) := by omega
      simp [hk, this]

/-- The loop body is undefined when the product `c_coord * inpHeight` overflows. -/
theorem forwardStep_overflow {α : Type} (inp : List α) (nc scale ih iw ch y x : Nat)
    (s : List α × Nat)
    (h : INT_MAX <
      (nc * scale * (y % scale) + nc * (x % scale) + ch) * ih) :
    forwardStep inp nc scale ih iw ch y s x = none := by
  unfold forwardStep
  by_cases hs : scale = 0
  · rw [if_pos hs]
  · rw [if_neg hs]
    simp only [Option.bind_eq_bind]
    rcases asInt_cases (nc * scale) with e | e <;> rw [e] <;>
      simp only [Option.none_bind, Option.some_bind]
    rcases asInt_cases (nc * scale * (y % scale)) with e | e <;> rw [e] <;>
      simp only [Option.none_bind, Option.some_bind]
    rcases asInt_cases (nc * (x % scale)) with e | e <;> rw [e] <;>
      simp only [Option.none_bind, Option.some_bind]
    rcases asInt_cases (nc * scale * (y % scale) + nc * (x % scale)) with e | e <;> rw [e] <;>
      simp only [Option.none_bind, Option.some_bind]
    rcases asInt_cases (nc * scale * (y % scale) + nc * (x % scale) + ch) with e | e <;>
      rw [e] <;> simp only [Option.none_bind, Option.some_bind]
    rw [asInt_of_gt h]
    rfl

/-- The three nested loops write `nc·(oh·ow)` cells; the cell at offset `j` is read at the
index computed for the channel, row and column that `j` encodes. -/
theorem forwardLoops_writes {α : Type} (inp : List α) (nc scale ih iw oh ow : Nat)
    (hs : scale ≠ 0)
    (hidx : ∀ ch y x, ch < nc → y < oh → x < ow →
      StepFits nc scale ih iw ch y x ∧ srcIndex nc scale ih iw ch y x < inp.length)
    (s0 : List α × Nat) (hroom : s0.2 + nc * (oh * ow) ≤ s0.1.length)
    (hcap : s0.2 + nc * (oh * ow) ≤ INT_MAX) :
    ∃ s, forwardLoops inp nc scale ih iw oh ow s0 = some s ∧
      Writes inp (fun j => srcIndex nc scale ih iw (j / (oh * ow)) (j % (oh * ow) / ow)
        (j % (oh * ow) % ow)) (nc * (oh * ow)) s0 s := by
  unfold forwardLoops
  apply writes_loop inp _ (fun ch j => srcIndex nc scale ih iw ch (j / ow) (j % ow)) (oh * ow) nc
    _ s0 hroom hcap
  intro ch hch s1 hroom1 hcap1
  apply writes_loop inp _ (fun y x => srcIndex nc scale ih iw ch y x) ow oh _ s1 hroom1 hcap1
  intro y hy s2 hroom2 hcap2
  have h := writes_loop inp (fun x s => forwardStep inp nc scale ih iw ch y s x)
    (fun x _ => srcIndex nc scale ih iw ch y x) 1 ow
    (fun x hx s hr hc =>
      forwardStep_writes inp nc scale ih iw ch y x hs (hidx ch y x hch hy hx).1
        (hidx ch y x hch hy hx).2 s hr hc)
    s2 (by omega) (by omega)
  obtain ⟨s3, h3, w3⟩ := h
  refine ⟨s3, h3, ?_⟩
  have w3' := w3.congr (fun x => srcIndex nc scale ih iw ch y x) (fun j _ => by simp)
  simpa using w3'

/-- The layer, for any shapes: it returns when the scale is positive, no `int` value
overflows, the reads stay inside the input and the output buffer is large enough, and it then
describes every output cell. -/
theorem forward_spec {α : Type} (inp out : Mat α) (ins outs : List (Mat α))
    (a b ih iw c nc oh ow : Nat)
    (hinp : inp.size = [a, b, ih, iw]) (hout : out.size = [c, nc, oh, ow])
    (hih : ih ≠ 0) (hs : oh / ih ≠ 0)
    (hidx : ∀ ch y x, ch < nc → y < oh → x < ow →
      StepFits nc (oh / ih) ih iw ch y x ∧
      srcIndex nc (oh / ih) ih iw ch y x < inp.data.length)
    (hroom : nc * (oh * ow) ≤ out.data.length) (hcap : nc * (oh * ow) ≤ INT_MAX) :
    ∃ data : List α, forward (inp :: ins) (out :: outs) = some (⟨out.size, data⟩ :: outs) ∧
      data.length = out.data.length ∧
      ∀ k, data[k]? = if k < nc * (oh * ow) then
          inp.data[srcIndex nc (oh / ih) ih iw (k / (oh * ow)) (k % (oh * ow) / ow)
            (k % (oh * ow) % ow)]?
        else out.data[k]? := by
  obtain ⟨s, hrun, w1, w2, w3⟩ := forwardLoops_writes inp.data nc (oh / ih) ih iw oh ow hs hidx
    (out.data, 0) (by simpa using hroom) (by simpa using hcap)
  refine ⟨s.1, ?_, w2, fun k => ?_⟩
  · simp [forward, hinp, hout, hih, hrun]
  · have := w3 k
    simpa using this

/-! ## Index arithmetic -/

/-- Two digits `a < A`, `b < B` make a number below `A·B`. -/
theorem lt_mul_add {a A b B : Nat} (ha : a < A) (hb : b < B) : a * B + b < A * B := by
  calc a * B + b < a * B + B := by omega
    _ = (a + 1) * B := by ring
    _ ≤ A * B := Nat.mul_le_mul_right B ha

/-- The digits of a two-digit number in base `B` are unique. -/
theorem digits_unique {B a b a' b' : Nat} (hb : b < B) (hb' : b' < B)
    (h : a * B + b = a' * B + b') : a = a' ∧ b = b' := by
  have hB : 0 < B := by omega
  have h1 : (a * B + b) / B = a := by
    rw [Nat.add_comm, Nat.add_mul_div_right _ _ hB, Nat.div_eq_of_lt hb, Nat.zero_add]
  have h2 : (a' * B + b') / B = a' := by
    rw [Nat.add_comm, Nat.add_mul_div_right _ _ hB, Nat.div_eq_of_lt hb', Nat.zero_add]
  have ha : a = a' := by rw [← h1, ← h2, h]
  subst ha
  exact ⟨rfl, by omega⟩

/-- The scale derived from the heights `H·r` and `H` is `r`. -/
theorem mul_div_self_left {H r : Nat} (hH : 1 ≤ H) : H * r / H = r :=
  Nat.mul_div_cancel_left r hH

/-- The source channel `c_coord` is below `C·r·r`. -/
theorem cCoord_lt {C r ch y x : Nat} (hr : 1 ≤ r) (hch : ch < C) :
    C * r * (y % r) + C * (x % r) + ch < C * r * r := by
  have hy : y % r < r := Nat.mod_lt _ hr
  have hx : x % r < r := Nat.mod_lt _ hr
  have e : C * r * (y % r) + C * (x % r) + ch = ((y % r) * r + x % r) * C + ch := by ring
  have e2 : C * r * r = (r * r) * C := by ring
  rw [e, e2]
  exact lt_mul_add (lt_mul_add hy hx) hch

/-- The index computed by the loop body lies inside the input. -/
theorem srcIndex_lt {C r H W ch y x : Nat} (hr : 1 ≤ r) (hch : ch < C) (hy : y < H * r)
    (hx : x < W * r) : srcIndex C r H W ch y x < C * r * r * H * W := by
  unfold srcIndex
  have hyd : y / r < H := (Nat.div_lt_iff_lt_mul hr).2 hy
  have hxd : x / r < W := (Nat.div_lt_iff_lt_mul hr).2 hx
  exact lt_mul_add (lt_mul_add (cCoord_lt hr hch) hyd) hxd

/-- Distinct output coordinates are read at distinct input indices. -/
theorem srcIndex_inj {C r H W ch y x ch' y' x' : Nat} (hr : 1 ≤ r)
    (hch : ch < C) (hy : y < H * r) (hx : x < W * r)
    (hch' : ch' < C) (hy' : y' < H * r) (hx' : x' < W * r)
    (h : srcIndex C r H W ch y x = srcIndex C r H W ch' y' x') :
    ch = ch' ∧ y = y' ∧ x = x' := by
  unfold srcIndex at h
  have hyd : y / r < H := (Nat.div_lt_iff_lt_mul hr).2 hy
  have hxd : x / r < W := (Nat.div_lt_iff_lt_mul hr).2 hx
  have hyd' : y' / r < H := (Nat.div_lt_iff_lt_mul hr).2 hy'
  have hxd' : x' / r < W := (Nat.div_lt_iff_lt_mul hr).2 hx'
  obtain ⟨h1, hxq⟩ := digits_unique hxd hxd' h
  obtain ⟨h2, hyq⟩ := digits_unique hyd hyd' h1
  have e : ∀ a b c : Nat, C * r * a + C * b + c = (a * r + b) * C + c := by intros; ring
  rw [e, e] at h2
  obtain ⟨h3, hc⟩ := digits_unique hch hch' h2
  obtain ⟨hym, hxm⟩ := digits_unique (Nat.mod_lt _ hr) (Nat.mod_lt _ hr) h3
  refine ⟨hc, ?_, ?_⟩
  · rw [← Nat.div_add_mod y r, ← Nat.div_add_mod y' r, hyq, hym]
  · rw [← Nat.div_add_mod x r, ← Nat.div_add_mod x' r, hxq, hxm]

/-- The flat position of `(ch, y, x)` decodes to `ch`, `y` and `x`. -/
theorem flat_decode {oh ow y x : Nat} (ch : Nat) (hy : y < oh) (hx : x < ow) :
    ((ch * oh + y) * ow + x) / (oh * ow) = ch ∧
    ((ch * oh + y) * ow + x) % (oh * ow) / ow = y ∧
    ((ch * oh + y) * ow + x) % (oh * ow) % ow = x := by
  have hpos : 0 < oh * ow := Nat.mul_pos (by omega) (by omega)
  have hlt : y * ow + x < oh * ow := lt_mul_add hy hx
  have e : (ch * oh + y) * ow + x = (y * ow + x) + (oh * ow) * ch := by ring
  have h1 : ((ch * oh + y) * ow + x) / (oh * ow) = ch := by
    rw [e, Nat.add_mul_div_left _ _ hpos, Nat.div_eq_of_lt hlt, Nat.zero_add]
  have h2 : ((ch * oh + y) * ow + x) % (oh * ow) = y * ow + x := by
    rw [e, Nat.add_mul_mod_self_left, Nat.mod_eq_of_lt hlt]
  refine ⟨h1, ?_, ?_⟩
  · rw [h2, Nat.add_comm, Nat.add_mul_div_right _ _ (by omega), Nat.div_eq_of_lt hx, Nat.zero_add]
  · rw [h2, Nat.add_comm, Nat.add_mul_mod_self_right, Nat.mod_eq_of_lt hx]

/-- A flat position below `nc·(oh·ow)` encodes coordinates in range. -/
theorem flat_encode {nc oh ow k : Nat} (hk : k < nc * (oh * ow)) :
    k / (oh * ow) < nc ∧ k % (oh * ow) / ow < oh ∧ k % (oh * ow) % ow < ow ∧
    (k / (oh * ow) * oh + k % (oh * ow) / ow) * ow + k % (oh * ow) % ow = k := by
  have hpos : 0 < oh * ow := by
    rcases Nat.eq_zero_or_pos (oh * ow) with h | h
    · rw [h] at hk; omega
    · exact h
  have how : 0 < ow := Nat.pos_of_ne_zero (fun h => by rw [h] at hpos; omega)
  refine ⟨?_, ?_, Nat.mod_lt _ how, ?_⟩
  · exact (Nat.div_lt_iff_lt_mul hpos).2 hk
  · have : k % (oh * ow) < oh * ow := Nat.mod_lt _ hpos
    exact (Nat.div_lt_iff_lt_mul how).2 this
  · have h1 := Nat.div_add_mod k (oh * ow)
    have h2 := Nat.div_add_mod (k % (oh * ow)) ow
    calc (k / (oh * ow) * oh + k % (oh * ow) / ow) * ow + k % (oh * ow) % ow
        = oh * ow * (k / (oh * ow)) + (ow * (k % (oh * ow) / ow) + k % (oh * ow) % ow) := by ring
      _ = k := by rw [h2, h1]

end DepthToSpace

namespace DepthToSpace

/-- Every intermediate value of the index computation of `forward` is bounded by the index
itself when the input height and width are positive. -/
theorem srcIndex_parts_le (nc s H W ch y x : Nat) (hH : 1 ≤ H) (hW : 1 ≤ W) :
    nc * s * (y % s) ≤ srcIndex nc s H W ch y x ∧
    nc * (x % s) ≤ srcIndex nc s H W ch y x ∧
    nc * s * (y % s) + nc * (x % s) + ch ≤ srcIndex nc s H W ch y x ∧
    (nc * s * (y % s) + nc * (x % s) + ch) * H ≤ srcIndex nc s H W ch y x ∧
    (nc * s * (y % s) + nc * (x % s) + ch) * H + y / s ≤ srcIndex nc s H W ch y x ∧
    ((nc * s * (y % s) + nc * (x % s) + ch) * H + y / s) * W ≤ srcIndex nc s H W ch y x := by
  unfold srcIndex
  generalize nc * s * (y % s) = p
  generalize nc * (x % s) = q
  generalize y / s = u
  generalize x / s = v
  have h1 : p + q + ch ≤ (p + q + ch) * H := Nat.le_mul_of_pos_right _ hH
  have h2 : (p + q + ch) * H + u ≤ ((p + q + ch) * H + u) * W :=
    Nat.le_mul_of_pos_right _ hW
  omega

/-- The `int` values of the loop body fit when the input height and width are positive and
the product `numChannels * scale` and the index fit. -/
theorem stepFits_of_index_le (nc s H W ch y x : Nat) (hH : 1 ≤ H) (hW : 1 ≤ W)
    (hcs : nc * s ≤ INT_MAX) (hidx : srcIndex nc s H W ch y x ≤ INT_MAX) :
    StepFits nc s H W ch y x := by
  obtain ⟨_, _, p3, p4, p5, p6⟩ := srcIndex_parts_le nc s H W ch y x hH hW
  exact ⟨hcs, le_trans p3 hidx, le_trans p4 hidx, le_trans p5 hidx, le_trans p6 hidx, hidx⟩

/-- On an input `[_, C·r·r, H, W]` with at most `INT_MAX` elements per batch item and an
output `[_, C, H·r, W·r]`, every `int` value computed by the loop body at `(ch, y, x)` fits. -/
theorem stepFits_wellshaped (C r H W ch y x : Nat) (hr : 1 ≤ r) (hH : 1 ≤ H)
    (hch : ch < C) (hy : y < H * r) (hx : x < W * r) (hfit : C * r * r * H * W ≤ INT_MAX) :
    StepFits C r H W ch y x := by
  have hW : 1 ≤ W := by
    rcases Nat.eq_zero_or_pos W with h | h
    · rw [h] at hx; omega
    · exact h
  have hidx := srcIndex_lt (H := H) hr hch hy hx
  refine stepFits_of_index_le C r H W ch y x hH hW ?_ (by omega)
  have h1 : C * r ≤ C * r * r := Nat.le_mul_of_pos_right _ hr
  have h2 : C * r * r ≤ C * r * r * H := Nat.le_mul_of_pos_right _ hH
  have h3 : C * r * r * H ≤ C * r * r * H * W := Nat.le_mul_of_pos_right _ hW
  omega

/-- The layer on well-shaped tensors: input `[a, b, H, W]` with at least `C·r·r·H·W` elements
and output `[c, C, H·r, W·r]` with at least `C·(H·r)·(W·r)` elements, where
`C·r·r·H·W ≤ INT_MAX`. -/
theorem forward_wellshaped {α : Type} (C r H W : Nat) (hr : 1 ≤ r) (hH : 1 ≤ H)
    (hfit : C * r * r * H * W ≤ INT_MAX)
    (inp out : Mat α) (ins outs : List (Mat α)) (a b c : Nat)
    (hinp : inp.size = [a, b, H, W]) (hout : out.size = [c, C, H * r, W * r])
    (hinpd : C * r * r * H * W ≤ inp.data.length)
    (houtd : C * ((H * r) * (W * r)) ≤ out.data.length) :
    ∃ data : List α, forward (inp :: ins) (out :: outs) = some (⟨out.size, data⟩ :: outs) ∧
      data.length = out.data.length ∧
      (∀ ch y x, ch < C → y < H * r → x < W * r →
        data[(ch * (H * r) + y) * (W * r) + x]? = inp.data[srcIndex C r H W ch y x]?) ∧
      (∀ k, C * ((H * r) * (W * r)) ≤ k → data[k]? = out.data[k]?) := by
  have hsc : H * r / H = r := mul_div_self_left hH
  have hcap : C * ((H * r) * (W * r)) ≤ INT_MAX := by
    have e : C * ((H * r) * (W * r)) = C * r * r * H * W := by ring
    rw [e]; exact hfit
  obtain ⟨data, hrun, hlen, hget⟩ := forward_spec inp out ins outs a b H W c C (H * r) (W * r)
    hinp hout (by omega) (by rw [hsc]; omega)
    (fun ch y x hch hy hx => by
      rw [hsc]
      exact ⟨stepFits_wellshaped C r H W ch y x hr hH hch hy hx hfit,
        lt_of_lt_of_le (srcIndex_lt hr hch hy hx) hinpd⟩)
    houtd hcap
  refine ⟨data, hrun, hlen, ?_, ?_⟩
  · intro ch y x hch hy hx
    have hk : (ch * (H * r) + y) * (W * r) + x < C * ((H * r) * (W * r)) := by
      have := lt_mul_add (lt_mul_add hch hy) hx
      rwa [Nat.mul_assoc] at this
    obtain ⟨d1, d2, d3⟩ := flat_decode ch hy hx
    rw [hget, if_pos hk, hsc, d1, d2, d3]
  · intro k hk
    rw [hget, if_neg (by omega)]

/-- A tall one-column input `[n, 4, H, 1]` with `2·H ≤ INT_MAX < 3·H` and the output
`[n, 1, 2·H, 2]`: the rows `y = 0` and the cell `(y, x) = (1, 0)` are copied, then at
`(y, x) = (1, 1)` the source channel is `3` and the product `3 * H` overflows. -/
theorem forward_overflow_tall {α : Type} (n H : Nat) (inp out : Mat α)
    (hinp : inp.size = [n, 4, H, 1]) (hout : out.size = [n, 1, 2 * H, 2])
    (h2 : 2 * H ≤ INT_MAX) (h3 : INT_MAX < 3 * H)
    (hinpd : 4 * H ≤ inp.data.length) (houtd : 4 ≤ out.data.length) :
    forward [inp] [out] = none := by
  have hHpos : 1 ≤ H := by
    unfold INT_MAX at h3; omega
  have hM : 4 ≤ INT_MAX := by unfold INT_MAX; omega
  have hsc : 2 * H / H = 2 := by rw [Nat.mul_comm]; exact mul_div_self_left hHpos
  have hfits : ∀ y x, y < 2 → x < 2 → (y, x) ≠ (1, 1) →
      StepFits 1 2 H 1 0 y x ∧ srcIndex 1 2 H 1 0 y x < inp.data.length := by
    intro y x hy hx hne
    have hcases : (y = 0 ∧ x = 0) ∨ (y = 0 ∧ x = 1) ∨ (y = 1 ∧ x = 0) := by
      rcases Nat.lt_or_ge y 1 with h | h <;> rcases Nat.lt_or_ge x 1 with h' | h'
      · left; omega
      · right; left; omega
      · right; right; omega
      · exfalso; apply hne; congr <;> omega
    have hidx : srcIndex 1 2 H 1 0 y x ≤ 2 * H ∧ srcIndex 1 2 H 1 0 y x < 4 * H := by
      rcases hcases with ⟨rfl, rfl⟩ | ⟨rfl, rfl⟩ | ⟨rfl, rfl⟩ <;>
        simp [srcIndex] <;> omega
    exact ⟨stepFits_of_index_le 1 2 H 1 0 y x hHpos (le_refl 1) (by omega) (by omega),
      by omega⟩
  -- the row y = 0
  obtain ⟨s1, hs1, w1, wl1, _⟩ := writes_loop inp.data
    (fun x s => forwardStep inp.data 1 2 H 1 0 0 s x)
    (fun x _ => srcIndex 1 2 H 1 0 0 x) 1 2
    (fun x hx s hr hc => forwardStep_writes inp.data 1 2 H 1 0 0 x (by decide)
      (hfits 0 x (by decide) hx (by simp)).1 (hfits 0 x (by decide) hx (by simp)).2 s hr hc)
    (out.data, 0) (by show 0 + 2 * 1 ≤ out.data.length; omega)
    (by show 0 + 2 * 1 ≤ INT_MAX; omega)
  have w1' : s1.2 = 2 := w1
  have wl1' : s1.1.length = out.data.length := wl1
  -- the cell (1, 0)
  obtain ⟨s2, hs2, _⟩ := forwardStep_writes inp.data 1 2 H 1 0 1 0 (by decide)
    (hfits 1 0 (by decide) (by decide) (by simp)).1
    (hfits 1 0 (by decide) (by decide) (by simp)).2 s1
    (by rw [w1', wl1']; omega) (by rw [w1']; omega)
  -- the cell (1, 1)
  have hfail : forwardStep inp.data 1 2 H 1 0 1 s2 1 = none :=
    forwardStep_overflow inp.data 1 2 H 1 0 1 1 s2 (by
      have e : (1 * 2 * (1 % 2) + 1 * (1 % 2) + 0) * H = 3 * H := by norm_num
      rw [e]; exact h3)
  have hrow1 : (List.range 2).foldlM (forwardStep inp.data 1 2 H 1 0 1) s1 = none :=
    foldlM_range_fail _ s1 s2 1 (by simpa [List.range_succ] using hs2) hfail 2 (by decide)
  have hmid : (List.range (2 * H)).foldlM (fun st y =>
      (List.range 2).foldlM (forwardStep inp.data 1 2 H 1 0 y) st) (out.data, 0) = none :=
    foldlM_range_fail _ (out.data, 0) s1 1 (by simpa [List.range_succ] using hs1) hrow1
      (2 * H) (by omega)
  have hloops : forwardLoops inp.data 1 2 H 1 (2 * H) 2 (out.data, 0) = none := by
    unfold forwardLoops
    have e : List.range 1 = [0] := rfl
    simp only [e, List.foldlM_cons, hmid, Option.bind_eq_bind, Option.none_bind]
  simp [forward, hinp, hout, hsc, hloops]

end DepthToSpace

/-! ## Depth-to-space: the gather -/

namespace DepthToSpace

/-- C1, counterexample: the input `[1, 4, 1073741823, 1]` (`C = 1`, `r = 2`, `H = 1073741823`,
`W = 1`) with the output buffer `[1, 1, 2147483646, 2]`. All dimensions are `int` values, but
at `(ch, y, x) = (0, 1, 1)` the source channel is `3` and the `int` product
`c_coord * inpHeight = 3 * 1073741823` overflows: `forward` does not produce the gather. -/
theorem forward_gather_overflow_counterexample :
    (1 ≤ 1 ∧ 1 ≤ 2 ∧ 1 ≤ 1073741823 ∧ 1 ≤ 1) ∧
    (1 * 2 * 2 = 4 ∧ 1073741823 * 2 = 2147483646 ∧ 1 * 2 = 2 ∧ 2147483646 ≤ INT_MAX) ∧
    forward [⟨[1, 4, 1073741823, 1], List.replicate (4 * 1073741823) (0 : Nat)⟩]
      [⟨[1, 1, 2147483646, 2], List.replicate (2147483646 * 2) 0⟩] = none := by
  refine ⟨by decide, by decide, ?_⟩
  exact forward_overflow_tall 1 1073741823 _ _ rfl rfl (by decide) (by decide)
    (by rw [List.length_replicate]) (by rw [List.length_replicate]; decide)

/-- C1, amended: on an input of shape `[1, C·r·r, H, W]` holding at most `INT_MAX = 2³¹ − 1`
elements and an output buffer of shape `[1, C, H·r, W·r]` (both contiguous row-major,
`C, r, H, W ≥ 1`), `forward` returns and
`output[ch, y, x] = input[C·r·(y mod r) + C·(x mod r) + ch, y / r, x / r]` for every
`ch < C`, `y < H·r`, `x < W·r`; and on the `[1,4,2,2]` input holding `0..15` the output is the
grid `[[0,4,1,5],[8,12,9,13],[2,6,3,7],[10,14,11,15]]`. -/
theorem forward_gather {α : Type} (C r H W : Nat) (_hC : 1 ≤ C) (hr : 1 ≤ r) (hH : 1 ≤ H)
    (_hW : 1 ≤ W) (hfit : C * r * r * H * W ≤ INT_MAX) (inp out : Mat α)
    (hinp : inp.size = [1, C * r * r, H, W]) (hinpd : inp.data.length = C * r * r * H * W)
    (hout : out.size = [1, C, H * r, W * r])
    (houtd : out.data.length = C * (H * r) * (W * r)) :
    (∃ res : Mat α, forward [inp] [out] = some [res] ∧ res.size = [1, C, H * r, W * r] ∧
      ∀ ch y x, ch < C → y < H * r → x < W * r →
        ∃ v, res.elemAt ch y x = some v ∧
          inp.elemAt (C * r * (y % r) + C * (x % r) + ch) (y / r) (x / r) = some v) ∧
    forward [⟨[1, 4, 2, 2], List.range 16⟩] [⟨[1, 1, 4, 4], List.replicate 16 0⟩] =
      some [⟨[1, 1, 4, 4], [0, 4, 1, 5, 8, 12, 9, 13, 2, 6, 3, 7, 10, 14, 11, 15]⟩] := by
  refine ⟨?_, by decide⟩
  obtain ⟨data, hrun, _, hget, _⟩ := forward_wellshaped C r H W hr hH hfit inp out [] [] 1
    (C * r * r) 1 hinp hout (le_of_eq hinpd.symm) (by rw [houtd]; exact le_of_eq (by ring))
  refine ⟨⟨out.size, data⟩, hrun, hout, ?_⟩
  intro ch y x hch hy hx
  have hlt : srcIndex C r H W ch y x < inp.data.length := by
    rw [hinpd]; exact srcIndex_lt hr hch hy hx
  refine ⟨inp.data[srcIndex C r H W ch y x], ?_, ?_⟩
  · simp only [Mat.elemAt, hout]
    simp [hget ch y x hch hy hx, List.getElem?_eq_getElem hlt]
  · simp only [Mat.elemAt, hinp]
    have := List.getElem?_eq_getElem hlt
    simp only [Option.bind_eq_bind, List.getElem?_cons_succ, List.getElem?_cons_zero,
      Option.some_bind]
    exact this

/-- C1 amended, at `C = 1`, `r = 2`, `H = W = 2` on the input `0..15`. -/
theorem forward_gather_witness :
    (1 * 2 * 2 * 2 * 2 ≤ INT_MAX) ∧
    (∃ res : Mat Nat,
      forward [⟨[1, 4, 2, 2], List.range 16⟩] [⟨[1, 1, 4, 4], List.replicate 16 0⟩] =
        some [res] ∧ res.size = [1, 1, 2 * 2, 2 * 2] ∧
      ∀ ch y x, ch < 1 → y < 2 * 2 → x < 2 * 2 →
        ∃ v, res.elemAt ch y x = some v ∧
          (Mat.mk [1, 4, 2, 2] (List.range 16)).elemAt
            (1 * 2 * (y % 2) + 1 * (x % 2) + ch) (y / 2) (x / 2) = some v) ∧
    forward [⟨[1, 4, 2, 2], List.range 16⟩] [⟨[1, 1, 4, 4], List.replicate 16 0⟩] =
      some [⟨[1, 1, 4, 4], [0, 4, 1, 5, 8, 12, 9, 13, 2, 6, 3, 7, 10, 14, 11, 15]⟩] :=
  ⟨by decide,
    forward_gather 1 2 2 2 (by decide) (by decide) (by decide) (by decide) (by decide)
      ⟨[1, 4, 2, 2], List.range 16⟩ ⟨[1, 1, 4, 4], List.replicate 16 0⟩ rfl rfl rfl rfl⟩

end DepthToSpace

/-! ## Depth-to-space: shape inference -/

namespace DepthToSpace

/-- C2, counterexample: on the input shape `[1, 4, 1073741824, 1]` the scale is `2` and the
`int` product `scale * inputs[0][2] = 2 * 2³⁰` overflows; `getMemoryShapes` does not produce
`[1, 1, 2·2³⁰, 2]`. -/
theorem getMemoryShapes_overflow_counterexample :
    1073741824 ≤ INT_MAX ∧ getMemoryShapes [[1, 4, 1073741824, 1]] = none ∧
    getMemoryShapes [[1, 4, 1073741824, 1]] ≠
      some (List.replicate 4 [1, 4 / 2 ^ 2, 2 * 1073741824, 2 * 1], false) := by
  have s2 : Nat.sqrt 4 = 2 := Nat.sqrt_eq' 2
  have h : getMemoryShapes [[1, 4, 1073741824, 1]] = none := by
    simp [getMemoryShapes, s2, asInt, INT_MAX]
  refine ⟨by decide, h, ?_⟩
  rw [h]
  simp

/-- C2, amended: for every `N`, `H`, `W` and every `C` among `4, 9, 16, 12, 27, 48`, with `r` the
square root of `C` for `C` among `4, 9, 16` and the square root of `C / 3` otherwise
(`r = 2, 3, 4, 2, 3, 4`), whenever `r·H ≤ INT_MAX` and `r·W ≤ INT_MAX`, `getMemoryShapes` on
the input shape `[N, C, H, W]` produces the output shape `[N, C / r², r·H, r·W]`, with
`C / r² = 1, 1, 1, 3, 3, 3`. The source assigns four copies of the shape to `outputs` and
returns `false`. -/
theorem getMemoryShapes_shape_law (N H W C r : Nat) (rest : List (List Nat))
    (hC : (C, r) ∈ [(4, 2), (9, 3), (16, 4), (12, 2), (27, 3), (48, 4)])
    (hH : r * H ≤ INT_MAX) (hW : r * W ≤ INT_MAX) :
    r = (if C = 4 ∨ C = 9 ∨ C = 16 then Nat.sqrt C else Nat.sqrt (C / 3)) ∧
    getMemoryShapes ([N, C, H, W] :: rest) =
      some (List.replicate 4 [N, C / r ^ 2, r * H, r * W], false) ∧
    C / r ^ 2 = (if C = 4 ∨ C = 9 ∨ C = 16 then 1 else 3) := by
  have s2 : Nat.sqrt 4 = 2 := Nat.sqrt_eq' 2
  have s3 : Nat.sqrt 9 = 3 := Nat.sqrt_eq' 3
  have s4 : Nat.sqrt 16 = 4 := Nat.sqrt_eq' 4
  simp only [List.mem_cons, Prod.mk.injEq, List.mem_singleton, List.not_mem_nil,
    or_false] at hC
  rcases hC with ⟨rfl, rfl⟩ | ⟨rfl, rfl⟩ | ⟨rfl, rfl⟩ | ⟨rfl, rfl⟩ | ⟨rfl, rfl⟩ | ⟨rfl, rfl⟩ <;>
    simp [getMemoryShapes, s2, s3, s4, asInt_of_le hH, asInt_of_le hW]

/-- C2 amended, at `C = 12`, `r = 2`, `N = 7`, `H = 10`, `W = 20`. -/
theorem getMemoryShapes_shape_law_witness :
    (2 * 10 ≤ INT_MAX ∧ 2 * 20 ≤ INT_MAX) ∧
    2 = (if 12 = 4 ∨ 12 = 9 ∨ 12 = 16 then Nat.sqrt 12 else Nat.sqrt (12 / 3)) ∧
    getMemoryShapes ([7, 12, 10, 20] :: []) =
      some (List.replicate 4 [7, 12 / 2 ^ 2, 2 * 10, 2 * 20], false) ∧
    12 / 2 ^ 2 = (if 12 = 4 ∨ 12 = 9 ∨ 12 = 16 then 1 else 3) :=
  ⟨by decide,
    getMemoryShapes_shape_law 7 10 20 12 2 [] (by simp) (by decide) (by decide)⟩

/-- C3, counterexample: with `r = 5` and `C_in = r² = 25` the source takes the three-channel
branch, derives the scale `2` from `25 / 3 = 8`, and produces `[1, 6, 2, 2]` instead of
`[1, 25 / 5², 1·5, 1·5] = [1, 1, 5, 5]`; and with `r = 2`, `C_in = 3·r² = 12` and
`H = 1073741824` the `int` product `scale * inputs[0][2]` overflows. -/
theorem getMemoryShapes_square25_counterexample :
    (getMemoryShapes [[1, 5 ^ 2, 1, 1]] = some (List.replicate 4 [1, 6, 2, 2], false) ∧
      getMemoryShapes [[1, 5 ^ 2, 1, 1]] ≠
        some (List.replicate 4 [1, 5 ^ 2 / 5 ^ 2, 1 * 5, 1 * 5], false)) ∧
    (1073741824 ≤ INT_MAX ∧ getMemoryShapes [[1, 3 * 2 ^ 2, 1073741824, 1]] = none) := by
  have h8 : Nat.sqrt 8 = 2 := by
    symm
    rw [Nat.eq_sqrt]
    decide
  have s2 : Nat.sqrt 4 = 2 := Nat.sqrt_eq' 2
  have h : getMemoryShapes [[1, 5 ^ 2, 1, 1]] = some (List.replicate 4 [1, 6, 2, 2], false) := by
    simp [getMemoryShapes, h8, asInt, INT_MAX]
  refine ⟨⟨h, ?_⟩, by decide, ?_⟩
  · rw [h]
    decide
  · simp [getMemoryShapes, s2, asInt, INT_MAX]

/-- C3, amended: for every `r ≥ 1` and every input shape `[N, C_in, H, W]` of `int` dimensions
with `H·r ≤ INT_MAX` and `W·r ≤ INT_MAX`: for `C_in = 3·r²` the derived scale is `r` and the
output shape is `[N, 3·r² / r², H·r, W·r]` with `3·r² / r² = 3`; for `C_in = r²` the output
shape is `[N, r² / r², H·r, W·r]` with `r² / r² = 1` when `r` is `2`, `3` or `4`. -/
theorem getMemoryShapes_scale_law (r N H W : Nat) (rest : List (List Nat)) (hr : 1 ≤ r)
    (_hc : 3 * r ^ 2 ≤ INT_MAX) (hH : H * r ≤ INT_MAX) (hW : W * r ≤ INT_MAX) :
    (getMemoryShapes ([N, 3 * r ^ 2, H, W] :: rest) =
        some (List.replicate 4 [N, 3 * r ^ 2 / r ^ 2, H * r, W * r], false) ∧
      3 * r ^ 2 / r ^ 2 = 3) ∧
    ((r = 2 ∨ r = 3 ∨ r = 4) →
      getMemoryShapes ([N, r ^ 2, H, W] :: rest) =
        some (List.replicate 4 [N, r ^ 2 / r ^ 2, H * r, W * r], false) ∧
      r ^ 2 / r ^ 2 = 1) := by
  have hpos : 0 < r ^ 2 := Nat.pos_pow_of_pos 2 hr
  have hH' : r * H ≤ INT_MAX := by rw [Nat.mul_comm]; exact hH
  have hW' : r * W ≤ INT_MAX := by rw [Nat.mul_comm]; exact hW
  constructor
  · have hne : ¬ (3 * r ^ 2 = 4 ∨ 3 * r ^ 2 = 9 ∨ 3 * r ^ 2 = 16) := by
      intro h
      have h3 : r ^ 2 = 3 := by omega
      rcases Nat.lt_or_ge r 2 with h2 | h2
      · have : r = 1 := by omega
        rw [this] at h3
        omega
      · have : 2 ^ 2 ≤ r ^ 2 := Nat.pow_le_pow_left h2 2
        omega
    have hdiv : 3 * r ^ 2 / 3 = r ^ 2 := Nat.mul_div_cancel_left _ (by decide)
    have hq : 3 * r ^ 2 / r ^ 2 = 3 := Nat.mul_div_cancel _ hpos
    have hr0 : r ≠ 0 := by omega
    have hscale : (if 3 * r ^ 2 = 4 ∨ 3 * r ^ 2 = 9 ∨ 3 * r ^ 2 = 16 then Nat.sqrt (3 * r ^ 2)
        else Nat.sqrt (3 * r ^ 2 / 3)) = r := by
      rw [if_neg hne, hdiv, Nat.sqrt_eq']
    refine ⟨?_, hq⟩
    simp only [getMemoryShapes, Option.bind_eq_bind, List.getElem?_cons_zero,
      List.getElem?_cons_succ, Option.some_bind, hscale, hr0, if_false, hq,
      asInt_of_le hH', asInt_of_le hW']
    rw [Nat.mul_comm r H, Nat.mul_comm r W]
  · intro h
    have s2 : Nat.sqrt 4 = 2 := Nat.sqrt_eq' 2
    have s3 : Nat.sqrt 9 = 3 := Nat.sqrt_eq' 3
    have s4 : Nat.sqrt 16 = 4 := Nat.sqrt_eq' 4
    rcases h with h | h | h <;> subst h <;>
      simp [getMemoryShapes, s2, s3, s4, asInt_of_le hH, asInt_of_le hW, Nat.mul_comm]

/-- C3 amended, at `r = 2`, `N = 1`, `H = 5`, `W = 7`: the three-channel input `[1, 12, 5, 7]`
and the one-channel input `[1, 4, 5, 7]`. -/
theorem getMemoryShapes_scale_law_witness :
    (1 ≤ 2 ∧ 3 * 2 ^ 2 ≤ INT_MAX ∧ 5 * 2 ≤ INT_MAX ∧ 7 * 2 ≤ INT_MAX) ∧
    getMemoryShapes ([1, 3 * 2 ^ 2, 5, 7] :: []) =
      some (List.replicate 4 [1, 3 * 2 ^ 2 / 2 ^ 2, 5 * 2, 7 * 2], false) ∧
    getMemoryShapes ([1, 2 ^ 2, 5, 7] :: []) =
      some (List.replicate 4 [1, 2 ^ 2 / 2 ^ 2, 5 * 2, 7 * 2], false) :=
  ⟨by decide,
    (getMemoryShapes_scale_law 2 1 5 7 [] (by decide) (by decide) (by decide)
      (by decide)).1.1,
    ((getMemoryShapes_scale_law 2 1 5 7 [] (by decide) (by decide) (by decide)
      (by decide)).2 (Or.inl rfl)).1⟩

end DepthToSpace

/-! ## Depth-to-space: shapes that do not match, and batches -/

namespace DepthToSpace

/-- C7, counterexample: `forward` has no shape check. With input `[1,4,2,2]` and output
`[1,1,5,4]` the output height `5` is not a multiple of the input height `2`; with input
`[1,4,2,3]` and output `[1,1,4,4]` the output width `4` is not `4 / 2 = 2` times the input
width `3`. In both cases `forward` returns normally after copying data into every output
cell. -/
theorem forward_mismatch_copies :
    (5 % 2 ≠ 0 ∧
      forward [⟨[1, 4, 2, 2], List.range 16⟩] [⟨[1, 1, 5, 4], List.replicate 20 99⟩] =
        some [⟨[1, 1, 5, 4],
          [0, 4, 1, 5, 8, 12, 9, 13, 2, 6, 3, 7, 10, 14, 11, 15, 4, 8, 5, 9]⟩]) ∧
    (4 % 2 = 0 ∧ 4 ≠ 4 / 2 * 3 ∧
      forward [⟨[1, 4, 2, 3], List.range 24⟩] [⟨[1, 1, 4, 4], List.replicate 16 99⟩] =
        some [⟨[1, 1, 4, 4],
          [0, 6, 1, 7, 12, 18, 13, 19, 3, 9, 4, 10, 15, 21, 16, 22]⟩]) := by
  decide

/-- C7, amended: `forward` checks no shape. With `s = outHeight / inpHeight` (integer
division), whenever `inpHeight ≥ 1`, `s ≥ 1`, no `int` value computed by the loop body
overflows, every index computed by the loop lies inside the input buffer and the output buffer
holds `numChannels·outHeight·outWidth ≤ INT_MAX` elements, `forward` returns normally and
`output[ch, y, x]` is the input element at the flat index
`((numChannels·s·(y mod s) + numChannels·(x mod s) + ch)·inpHeight + y / s)·inpWidth + x / s`,
whether or not `outHeight = s·inpHeight` and `outWidth = s·inpWidth`. -/
theorem forward_unchecked {α : Type} (inp out : Mat α) (ins outs : List (Mat α))
    (a b ih iw c nc oh ow : Nat)
    (hinp : inp.size = [a, b, ih, iw]) (hout : out.size = [c, nc, oh, ow])
    (hih : 1 ≤ ih) (hs : 1 ≤ oh / ih)
    (hfits : ∀ ch y x, ch < nc → y < oh → x < ow → StepFits nc (oh / ih) ih iw ch y x)
    (hidx : ∀ ch y x, ch < nc → y < oh → x < ow →
      srcIndex nc (oh / ih) ih iw ch y x < inp.data.length)
    (hroom : nc * oh * ow ≤ out.data.length) (hcap : nc * oh * ow ≤ INT_MAX) :
    ∃ res : Mat α, forward (inp :: ins) (out :: outs) = some (res :: outs) ∧
      res.size = out.size ∧
      ∀ ch y x, ch < nc → y < oh → x < ow →
        ∃ v, res.elemAt ch y x = some v ∧
          inp.data[((nc * (oh / ih) * (y % (oh / ih)) + nc * (x % (oh / ih)) + ch) * ih
            + y / (oh / ih)) * iw + x / (oh / ih)]? = some v := by
  obtain ⟨data, hrun, _, hget⟩ := forward_spec inp out ins outs a b ih iw c nc oh ow hinp hout
    (by omega) (by omega)
    (fun ch y x hch hy hx => ⟨hfits ch y x hch hy hx, hidx ch y x hch hy hx⟩)
    (by rw [← Nat.mul_assoc]; exact hroom) (by rw [← Nat.mul_assoc]; exact hcap)
  refine ⟨⟨out.size, data⟩, hrun, rfl, ?_⟩
  intro ch y x hch hy hx
  have hlt := hidx ch y x hch hy hx
  have hk : (ch * oh + y) * ow + x < nc * (oh * ow) := by
    have := lt_mul_add (lt_mul_add hch hy) hx
    rwa [Nat.mul_assoc] at this
  obtain ⟨d1, d2, d3⟩ := flat_decode ch hy hx
  refine ⟨inp.data[srcIndex nc (oh / ih) ih iw ch y x], ?_, List.getElem?_eq_getElem hlt⟩
  simp only [Mat.elemAt, hout, Option.bind_eq_bind, List.getElem?_cons_succ,
    List.getElem?_cons_zero, Option.some_bind]
  rw [hget, if_pos hk, d1, d2, d3]
  exact List.getElem?_eq_getElem hlt

/-- C7 amended, on the input `[1,4,2,3]` and the output `[1,1,4,4]`, whose width is not twice
the input width. -/
theorem forward_unchecked_witness :
    (1 ≤ 2 ∧ 1 ≤ 4 / 2 ∧ 1 * 4 * 4 ≤ INT_MAX) ∧
    ∃ res : Mat Nat,
      forward (⟨[1, 4, 2, 3], List.range 24⟩ :: [])
        (⟨[1, 1, 4, 4], List.replicate 16 99⟩ :: []) = some (res :: []) ∧
      res.size = (Mat.mk [1, 1, 4, 4] (List.replicate 16 99)).size ∧
      ∀ ch y x, ch < 1 → y < 4 → x < 4 →
        ∃ v, res.elemAt ch y x = some v ∧
          (Mat.mk [1, 4, 2, 3] (List.range 24)).data[((1 * (4 / 2) * (y % (4 / 2))
            + 1 * (x % (4 / 2)) + ch) * 2 + y / (4 / 2)) * 3 + x / (4 / 2)]? = some v :=
  ⟨by decide,
    forward_unchecked ⟨[1, 4, 2, 3], List.range 24⟩ ⟨[1, 1, 4, 4], List.replicate 16 99⟩ [] []
      1 4 2 3 1 1 4 4 rfl rfl (by decide) (by decide)
      (fun ch y x hch hy hx => by
        have h2 : (4 : Nat) / 2 = 2 := rfl
        refine stepFits_of_index_le 1 (4 / 2) 2 3 ch y x (by decide) (by decide) (by decide) ?_
        simp only [srcIndex, h2, INT_MAX]
        omega)
      (fun ch y x hch hy hx => by
        have h2 : (4 : Nat) / 2 = 2 := rfl
        simp only [srcIndex, h2, List.length_range]
        omega)
      (by decide) (by decide)⟩

/-- C10, counterexample: the input `[2, 4, 1073741823, 1]` (`N = 2`, `C = 1`, `r = 2`) with the
output buffer `[2, 1, 2147483646, 2]`. At `(ch, y, x) = (0, 1, 1)` the `int` product
`c_coord * inpHeight = 3 * 1073741823` overflows: the first `C·H·r·W·r` cells are not written
as stated. -/
theorem forward_first_batch_overflow_counterexample :
    (2 ≤ 2 ∧ 1 * 2 * 2 = 4 ∧ 1073741823 * 2 = 2147483646 ∧ 1 * 2 = 2 ∧
      2147483646 ≤ INT_MAX) ∧
    forward [⟨[2, 4, 1073741823, 1], List.replicate (2 * (4 * 1073741823)) (0 : Nat)⟩]
      [⟨[2, 1, 2147483646, 2], List.replicate (2 * (2147483646 * 2)) 0⟩] = none := by
  refine ⟨by decide, ?_⟩
  exact forward_overflow_tall 2 1073741823 _ _ rfl rfl (by decide) (by decide)
    (by rw [List.length_replicate]; decide) (by rw [List.length_replicate]; decide)

/-- C10, amended: on an input of shape `[N, C·r·r, H, W]` whose batch items hold at most
`INT_MAX` elements (`C·r·r·H·W ≤ INT_MAX`) and an output buffer of shape `[N, C, H·r, W·r]`
with `N ≥ 2`, `forward` returns; the first `C·(H·r)·(W·r)` cells of the output buffer
receive elements of batch 0 of the input (flat index below `C·r·r·H·W`), and every later
cell, that is every cell of a batch of index at least 1, keeps its prior value. -/
theorem forward_first_batch_only {α : Type} (N C r H W : Nat) (hN : 2 ≤ N) (hr : 1 ≤ r)
    (hH : 1 ≤ H) (hfit : C * r * r * H * W ≤ INT_MAX) (inp out : Mat α)
    (hinp : inp.size = [N, C * r * r, H, W])
    (hinpd : inp.data.length = N * (C * r * r * H * W))
    (hout : out.size = [N, C, H * r, W * r])
    (houtd : out.data.length = N * (C * (H * r) * (W * r))) :
    ∃ res : Mat α, forward [inp] [out] = some [res] ∧ res.size = out.size ∧
      res.data.length = out.data.length ∧
      (∀ ch y x, ch < C → y < H * r → x < W * r →
        (ch * (H * r) + y) * (W * r) + x < C * (H * r) * (W * r) ∧
        srcIndex C r H W ch y x < C * r * r * H * W ∧
        ∃ v, res.data[(ch * (H * r) + y) * (W * r) + x]? = some v ∧
          inp.data[srcIndex C r H W ch y x]? = some v) ∧
      (∀ k, C * (H * r) * (W * r) ≤ k → res.data[k]? = out.data[k]?) := by
  have hN1 : ∀ m : Nat, m ≤ N * m := fun m => Nat.le_mul_of_pos_left m (by omega)
  obtain ⟨data, hrun, hlen, hget, hkeep⟩ := forward_wellshaped C r H W hr hH hfit inp out [] []
    N (C * r * r) N hinp hout (by rw [hinpd]; exact hN1 _)
    (by rw [houtd, ← Nat.mul_assoc C]; exact hN1 _)
  refine ⟨⟨out.size, data⟩, hrun, rfl, hlen, ?_, ?_⟩
  · intro ch y x hch hy hx
    have hsrc := srcIndex_lt (H := H) hr hch hy hx
    have hlt : srcIndex C r H W ch y x < inp.data.length := by
      rw [hinpd]; exact lt_of_lt_of_le hsrc (hN1 _)
    refine ⟨lt_mul_add (lt_mul_add hch hy) hx, hsrc, inp.data[srcIndex C r H W ch y x], ?_,
      List.getElem?_eq_getElem hlt⟩
    show data[(ch * (H * r) + y) * (W * r) + x]? = _
    rw [hget ch y x hch hy hx]
    exact List.getElem?_eq_getElem hlt
  · intro k hk
    exact hkeep k (by rw [← Nat.mul_assoc C]; exact hk)

/-- C10 amended, at `N = 2`, `C = 1`, `r = 2`, `H = W = 2`. -/
theorem forward_first_batch_only_witness :
    (2 ≤ 2 ∧ 1 * 2 * 2 * 2 * 2 ≤ INT_MAX) ∧
    ∃ res : Mat Nat,
      forward [⟨[2, 1 * 2 * 2, 2, 2], List.range 32⟩]
        [⟨[2, 1, 2 * 2, 2 * 2], List.replicate 32 99⟩] = some [res] ∧
      res.size = (Mat.mk [2, 1, 2 * 2, 2 * 2] (List.replicate 32 99)).size ∧
      res.data.length = (Mat.mk [2, 1, 2 * 2, 2 * 2] (List.replicate 32 99)).data.length ∧
      (∀ ch y x, ch < 1 → y < 2 * 2 → x < 2 * 2 →
        (ch * (2 * 2) + y) * (2 * 2) + x < 1 * (2 * 2) * (2 * 2) ∧
        srcIndex 1 2 2 2 ch y x < 1 * 2 * 2 * 2 * 2 ∧
        ∃ v, res.data[(ch * (2 * 2) + y) * (2 * 2) + x]? = some v ∧
          (Mat.mk [2, 1 * 2 * 2, 2, 2] (List.range 32)).data[srcIndex 1 2 2 2 ch y x]? =
            some v) ∧
      (∀ k, 1 * (2 * 2) * (2 * 2) ≤ k →
        res.data[k]? = (Mat.mk [2, 1, 2 * 2, 2 * 2] (List.replicate 32 99)).data[k]?) :=
  ⟨by decide,
    forward_first_batch_only 2 1 2 2 2 (by decide) (by decide) (by decide) (by decide)
      ⟨[2, 1 * 2 * 2, 2, 2], List.range 32⟩ ⟨[2, 1, 2 * 2, 2 * 2], List.replicate 32 99⟩
      rfl rfl rfl rfl⟩

end DepthToSpace

/-! ## Depth-to-space: the gather is a permutation -/

namespace DepthToSpace

/-- The input index gathered into the flat output position `k` lies inside the input. -/
theorem gather_index_lt {C r H W k : Nat} (hr : 1 ≤ r) (hk : k < C * (H * r) * (W * r)) :
    srcIndex C r H W (k / ((H * r) * (W * r))) (k % ((H * r) * (W * r)) / (W * r))
      (k % ((H * r) * (W * r)) % (W * r)) < C * r * r * H * W := by
  rw [Nat.mul_assoc] at hk
  obtain ⟨h1, h2, h3, _⟩ := flat_encode hk
  exact srcIndex_lt hr h1 h2 h3

/-- Distinct flat output positions gather distinct input indices. -/
theorem gather_index_inj {C r H W k k' : Nat} (hr : 1 ≤ r) (hk : k < C * (H * r) * (W * r))
    (hk' : k' < C * (H * r) * (W * r))
    (h : srcIndex C r H W (k / ((H * r) * (W * r))) (k % ((H * r) * (W * r)) / (W * r))
        (k % ((H * r) * (W * r)) % (W * r)) =
      srcIndex C r H W (k' / ((H * r) * (W * r))) (k' % ((H * r) * (W * r)) / (W * r))
        (k' % ((H * r) * (W * r)) % (W * r))) : k = k' := by
  rw [Nat.mul_assoc] at hk hk'
  obtain ⟨h1, h2, h3, e⟩ := flat_encode hk
  obtain ⟨h1', h2', h3', e'⟩ := flat_encode hk'
  obtain ⟨a1, a2, a3⟩ := srcIndex_inj hr h1 h2 h3 h1' h2' h3' h
  rw [← e, ← e', a1, a2, a3]

/-- A list read through a bijection of its positions is a rearrangement of the list. -/
theorem perm_of_bijective_gather {α : Type} {m n : Nat} (l l' : List α) (hl : l.length = n)
    (hl' : l'.length = m) (σ : Fin m → Fin n) (hσ : Function.Bijective σ)
    (hget : ∀ k : Fin m, l'[k.val]? = l[(σ k).val]?) : l'.Perm l := by
  subst hl
  subst hl'
  have e1 : l' = (List.ofFn σ).map l.get := by
    apply List.ext_getElem? 
    intro i
    by_cases hi : i < l'.length
    · have := hget ⟨i, hi⟩
      simp only [] at this
      rw [this]
      simp [List.getElem?_eq_getElem, hi]
    · simp [List.getElem?_eq_none, Nat.le_of_not_lt hi]
  have e2 : l = (List.finRange l.length).map l.get := (List.finRange_map_get l).symm
  have hp : (List.ofFn σ).Perm (List.finRange l.length) := by
    rw [List.perm_ext_iff_of_nodup (List.nodup_ofFn.2 hσ.1) (List.nodup_finRange _)]
    intro a
    simp only [List.mem_ofFn, List.mem_finRange, iff_true]
    exact hσ.2 a
  rw [e1]
  conv_rhs => rw [e2]
  exact hp.map _

/-- C9, counterexample: the input `[1, 4, 1000000000, 1]` (`C = 1`, `r = 2`, `H = 10⁹`,
`W = 1`) with the output buffer `[1, 1, 2000000000, 2]`. At `(ch, y, x) = (0, 1, 1)` the
computation of the input index overflows `int` (`c_coord * inpHeight = 3·10⁹`), so the index
computed by `forward` is not the in-bounds index of the claim. -/
theorem forward_permutation_overflow_counterexample :
    (1 ≤ 1 ∧ 1 ≤ 2 ∧ 1 ≤ 1000000000 ∧ 1 ≤ 1) ∧
    (1 * 2 * 2 = 4 ∧ 1000000000 * 2 = 2000000000 ∧ 1 * 2 = 2 ∧ 2000000000 ≤ INT_MAX) ∧
    forward [⟨[1, 4, 1000000000, 1], List.replicate (4 * 1000000000) (0 : Nat)⟩]
      [⟨[1, 1, 2000000000, 2], List.replicate (2000000000 * 2) 0⟩] = none := by
  refine ⟨by decide, by decide, ?_⟩
  exact forward_overflow_tall 1 1000000000 _ _ rfl rfl (by decide) (by decide)
    (by rw [List.length_replicate]) (by rw [List.length_replicate]; decide)

/-- C9, amended: for `C, r, H, W ≥ 1` with `C·r·r·H·W ≤ INT_MAX`, input shape
`[1, C·r·r, H, W]` and output shape `[1, C, H·r, W·r]`, there is a bijection `σ` from the flat
output positions (below `C·(H·r)·(W·r)`) to the flat input positions (below `C·r·r·H·W`) such
that `σ` sends the position of `(ch, y, x)` to the index computed by the loop body, `forward`
returns with `output[k] = input[σ k]` for every output position `k`, and the output buffer is
a rearrangement of the input buffer. -/
theorem forward_permutation {α : Type} (C r H W : Nat) (_hC : 1 ≤ C) (hr : 1 ≤ r)
    (hH : 1 ≤ H) (_hW : 1 ≤ W) (hfit : C * r * r * H * W ≤ INT_MAX) (inp out : Mat α)
    (hinp : inp.size = [1, C * r * r, H, W]) (hinpd : inp.data.length = C * r * r * H * W)
    (hout : out.size = [1, C, H * r, W * r])
    (houtd : out.data.length = C * (H * r) * (W * r)) :
    ∃ σ : Fin (C * (H * r) * (W * r)) → Fin (C * r * r * H * W),
      Function.Bijective σ ∧
      (∀ ch y x, ch < C → y < H * r → x < W * r →
        ∀ h : (ch * (H * r) + y) * (W * r) + x < C * (H * r) * (W * r),
          (σ ⟨(ch * (H * r) + y) * (W * r) + x, h⟩).val = srcIndex C r H W ch y x) ∧
      ∃ res : Mat α, forward [inp] [out] = some [res] ∧
        res.data.length = C * (H * r) * (W * r) ∧
        (∀ k : Fin (C * (H * r) * (W * r)), res.data[k.val]? = inp.data[(σ k).val]?) ∧
        res.data.Perm inp.data := by
  obtain ⟨data, hrun, hlen, hget, _⟩ := forward_wellshaped C r H W hr hH hfit inp out [] [] 1
    (C * r * r) 1 hinp hout (le_of_eq hinpd.symm) (by rw [houtd]; exact le_of_eq (by ring))
  let σ : Fin (C * (H * r) * (W * r)) → Fin (C * r * r * H * W) := fun k =>
    ⟨srcIndex C r H W (k.val / ((H * r) * (W * r))) (k.val % ((H * r) * (W * r)) / (W * r))
      (k.val % ((H * r) * (W * r)) % (W * r)), gather_index_lt hr k.isLt⟩
  have hinj : Function.Injective σ := by
    intro k k' hkk
    have := congrArg Fin.val hkk
    exact Fin.ext (gather_index_inj hr k.isLt k'.isLt this)
  have hbij : Function.Bijective σ := by
    rw [Fintype.bijective_iff_injective_and_card]
    refine ⟨hinj, ?_⟩
    simp only [Fintype.card_fin]
    ring
  have hσget : ∀ k : Fin (C * (H * r) * (W * r)), data[k.val]? = inp.data[(σ k).val]? := by
    intro k
    have hk : k.val < C * ((H * r) * (W * r)) := lt_of_lt_of_eq k.isLt (Nat.mul_assoc _ _ _)
    obtain ⟨h1, h2, h3, e⟩ := flat_encode hk
    have := hget _ _ _ h1 h2 h3
    rw [e] at this
    exact this
  refine ⟨σ, hbij, ?_, ⟨out.size, data⟩, hrun, by rw [hlen, houtd], hσget, ?_⟩
  · intro ch y x _ hy hx h
    obtain ⟨d1, d2, d3⟩ := flat_decode ch hy hx
    show srcIndex C r H W _ _ _ = _
    simp only [d1, d2, d3]
  · exact perm_of_bijective_gather inp.data data hinpd (by rw [hlen, houtd]) σ hbij hσget

/-- C9 amended, at `C = 1`, `r = 2`, `H = W = 2` on the input `0..15`. -/
theorem forward_permutation_witness :
    (1 * 2 * 2 * 2 * 2 ≤ INT_MAX) ∧
    ∃ σ : Fin (1 * (2 * 2) * (2 * 2)) → Fin (1 * 2 * 2 * 2 * 2),
      Function.Bijective σ ∧
      (∀ ch y x, ch < 1 → y < 2 * 2 → x < 2 * 2 →
        ∀ h : (ch * (2 * 2) + y) * (2 * 2) + x < 1 * (2 * 2) * (2 * 2),
          (σ ⟨(ch * (2 * 2) + y) * (2 * 2) + x, h⟩).val = srcIndex 1 2 2 2 ch y x) ∧
      ∃ res : Mat Nat,
        forward [⟨[1, 1 * 2 * 2, 2, 2], List.range 16⟩]
          [⟨[1, 1, 2 * 2, 2 * 2], List.replicate 16 0⟩] = some [res] ∧
        res.data.length = 1 * (2 * 2) * (2 * 2) ∧
        (∀ k : Fin (1 * (2 * 2) * (2 * 2)),
          res.data[k.val]? = (Mat.mk [1, 1 * 2 * 2, 2, 2] (List.range 16)).data[(σ k).val]?) ∧
        res.data.Perm (Mat.mk [1, 1 * 2 * 2, 2, 2] (List.range 16)).data :=
  ⟨by decide,
    forward_permutation 1 2 2 2 (by decide) (by decide) (by decide) (by decide) (by decide)
      ⟨[1, 1 * 2 * 2, 2, 2], List.range 16⟩ ⟨[1, 1, 2 * 2, 2 * 2], List.replicate 16 0⟩
      rfl rfl rfl rfl⟩

end DepthToSpace

/-! ## The upsampling pipeline -/

/-- The header-level primitives satisfy the contract of `split`, `resize` and `merge`. -/
theorem headerCv_contract : CvContract headerCv := by
  refine ⟨?_, ?_, ?_, ?_⟩
  · intro m mv ht h
    have h3 : channelsOf m.type = 3 := by
      have : m.type = MatType.CV_32FC3 := ht
      rw [this]; rfl
    simp only [headerCv, h3, if_true, Option.some.injEq] at h
    rw [← h]; rfl
  · intro m mv c h hc
    simp only [headerCv] at h ⊢
    split at h
    · simp only [Option.some.injEq] at h
      rw [← h] at hc
      have := List.eq_of_mem_replicate hc
      rw [this]
      exact ⟨rfl, rfl⟩
    · simp only [Option.some.injEq] at h
      rw [← h] at hc
      simp only [List.mem_singleton] at hc
      rw [hc]
      exact ⟨rfl, rfl⟩
  · intro m fx fy r h
    simp only [headerCv, headerResize] at h ⊢
    split at h
    · rename_i hpos
      simp only [Option.some.injEq] at h
      rw [← h]
      simp only [Nat.cast_mul]
      rw [Int.toNat_of_nonneg (by omega), Int.toNat_of_nonneg (by omega)]
      exact ⟨rfl, rfl⟩
    · exact absurd h (by simp)
  · intro mv r h a ha b hb
    simp only [headerCv] at h ⊢
    unfold headerMerge at h
    split at h
    · rename_i p q s
      split at h
      · rename_i hsz
        simp only [List.mem_cons, List.mem_singleton, List.not_mem_nil, or_false] at ha hb
        rcases ha with ha | ha | ha <;> rcases hb with hb | hb | hb <;> subst ha <;> subst hb <;>
          omega
      · exact absurd h (by simp)
    · exact absurd h (by simp)

/-- The loop of `upsampleMultioutput` appends one reconstructed image per index, in order. -/
theorem multioutput_loop {M N : Type} (cv : Cv M N) (outputs_blobs : List M) (preproc_img : M)
    (scale_factors : List Int) (recs : List (M × List String))
    (hrecs : recs.length = scale_factors.length)
    (hstep : ∀ i, i < scale_factors.length → ∃ b tl out_img s rec,
      outputs_blobs[i]? = some b ∧ cv.imagesFromBlob b = some (out_img :: tl) ∧
      scale_factors[i]? = some s ∧ recs[i]? = some rec ∧
      reconstruct_YCrCb cv out_img preproc_img cv.emptyMat s = some rec)
    (imgs_new : List M) :
    ∃ cout, (List.range scale_factors.length).foldlM
        (multioutputStep cv outputs_blobs preproc_img scale_factors) (imgs_new, []) =
      some (imgs_new ++ recs.map Prod.fst, cout) := by
  have h := foldlM_range_inv (multioutputStep cv outputs_blobs preproc_img scale_factors)
    (fun i st => st.1 = imgs_new ++ (recs.take i).map Prod.fst) (imgs_new, [])
    scale_factors.length (by simp) (by
      intro i hi st hst
      obtain ⟨b, tl, out_img, s, rec, h1, h2, h3, h4, h5⟩ := hstep i hi
      refine ⟨(st.1 ++ [rec.1], st.2 ++ rec.2), ?_, ?_⟩
      · simp [multioutputStep, h1, h2, h3, h5]
      · simp only [hst, List.take_succ, h4, Option.toList_some,
          List.map_append, List.map_cons, List.map_nil, List.append_assoc])
  obtain ⟨st, hrun, hst⟩ := h
  refine ⟨st.2, ?_⟩
  rw [hrun]
  have : recs.take scale_factors.length = recs := by
    rw [← hrecs]; exact List.take_length recs
  rw [this] at hst
  rw [← hst]

/-- C4: for the algorithm `lapsrn`, a loaded network and scale-factor and node-name lists of
one length `n ≥ 1`, `upsampleMultioutput` preprocesses the image once (`preproc_img`), sets the
luma blob as input and calls the engine once with the node-name list (the engine is left in the
state `net2` reached by that one `setInput` and one `forwardNames`), and appends exactly `n`
images: the `i`-th appended image is `reconstruct_YCrCb` applied to the image unpacked from the
`i`-th output of the engine, the shared `preproc_img` and `scale_factors[i]`. The external calls
are assumed to return (the engine returns at least `n` non-empty outputs). -/
theorem upsampleMultioutput_order {M N : Type} (cv : Cv M N) (self : DnnSuperResImpl N)
    (img : M) (imgs_new : List M) (scale_factors : List Int) (node_names : List String)
    (halg : self.alg = "lapsrn") (hnet : cv.netEmpty self.net = false)
    (hlen : scale_factors.length = node_names.length) (hne : 1 ≤ scale_factors.length)
    (preproc_img : M) (cout1 : List String)
    (hpre : preprocess_YCrCb cv img cv.emptyMat = some (preproc_img, cout1))
    (ycbcr_channels : List M) (hsplit : splitInto3 cv preproc_img = some ycbcr_channels)
    (blob : M)
    (hblob : cv.blobFromImage (ycbcr_channels.getD 0 cv.emptyMat) 1.0 [0, 0, 0, 0] = some blob)
    (net1 : N) (hset : cv.setInput self.net blob = some net1)
    (outputs_blobs : List M) (net2 : N)
    (hfwd : cv.forwardNames net1 node_names = some (outputs_blobs, net2))
    (recs : List (M × List String)) (hrecs : recs.length = scale_factors.length)
    (hstep : ∀ i, i < scale_factors.length → ∃ b tl out_img s rec,
      outputs_blobs[i]? = some b ∧ cv.imagesFromBlob b = some (out_img :: tl) ∧
      scale_factors[i]? = some s ∧ recs[i]? = some rec ∧
      reconstruct_YCrCb cv out_img preproc_img cv.emptyMat s = some rec) :
    ∃ cout, upsampleMultioutput cv self img imgs_new scale_factors node_names =
        some (imgs_new ++ recs.map Prod.fst, ⟨net2, self.alg, self.sc⟩, cout) ∧
      (imgs_new ++ recs.map Prod.fst).length = imgs_new.length + scale_factors.length := by
  obtain ⟨cout2, hloop⟩ := multioutput_loop cv outputs_blobs preproc_img scale_factors recs
    hrecs hstep imgs_new
  have hsf : scale_factors ≠ [] := by
    intro h; rw [h] at hne; simp at hne
  have hnn : node_names ≠ [] := by
    intro h; rw [h] at hlen; rw [hlen] at hne; simp at hne
  refine ⟨cout1 ++ cout2, ?_, by simp [hrecs]⟩
  unfold upsampleMultioutput
  rw [if_neg (by simp [hlen]), if_neg (by simp [hsf]), if_neg (by simp [hnn]),
    if_neg (by simp [halg]), if_pos (by simp [hnet]), if_pos halg]
  simp only [hpre, Option.bind_eq_bind, Option.some_bind, hsplit, hblob, hset, hfwd, hloop]

/-- C4 on the header-level primitives: the request `[(2, "a"), (4, "b")]` on a 3×5 image. -/
theorem upsampleMultioutput_order_witness :
    ∃ cout, upsampleMultioutput headerCv
        ⟨⟨true, 2, [("b", 4), ("a", 2)], none, 0⟩, "lapsrn", 2⟩ ⟨MatType.CV_8UC3, 3, 5⟩ []
        [2, 4] ["a", "b"] =
        some ([] ++ [((⟨MatType.CV_8UC3, 6, 10⟩ : Img), ([] : List String)),
            (⟨MatType.CV_8UC3, 12, 20⟩, [])].map Prod.fst,
          ⟨⟨true, 2, [("b", 4), ("a", 2)], some ⟨MatType.CV_32FC1, 3, 5⟩, 1⟩,
            (DnnSuperResImpl.mk (Engine.mk true 2 [("b", 4), ("a", 2)] none 0) "lapsrn" 2).alg,
            (DnnSuperResImpl.mk (Engine.mk true 2 [("b", 4), ("a", 2)] none 0) "lapsrn" 2).sc⟩,
          cout) ∧
      (([] : List Img) ++ [((⟨MatType.CV_8UC3, 6, 10⟩ : Img), ([] : List String)),
          (⟨MatType.CV_8UC3, 12, 20⟩, [])].map Prod.fst).length =
        ([] : List Img).length + [(2 : Int), 4].length :=
  upsampleMultioutput_order headerCv ⟨⟨true, 2, [("b", 4), ("a", 2)], none, 0⟩, "lapsrn", 2⟩
    ⟨MatType.CV_8UC3, 3, 5⟩ [] [2, 4] ["a", "b"] rfl rfl rfl (by decide)
    ⟨MatType.CV_32FC3, 3, 5⟩ [] rfl
    (List.replicate 3 ⟨MatType.CV_32FC1, 3, 5⟩) rfl
    ⟨MatType.CV_32FC1, 3, 5⟩ rfl
    ⟨true, 2, [("b", 4), ("a", 2)], some ⟨MatType.CV_32FC1, 3, 5⟩, 0⟩ rfl
    [⟨MatType.CV_32FC1, 6, 10⟩, ⟨MatType.CV_32FC1, 12, 20⟩]
    ⟨true, 2, [("b", 4), ("a", 2)], some ⟨MatType.CV_32FC1, 3, 5⟩, 1⟩ (by decide)
    [(⟨MatType.CV_8UC3, 6, 10⟩, []), (⟨MatType.CV_8UC3, 12, 20⟩, [])] rfl
    (fun i hi => by
      have hi2 : i < 2 := hi
      interval_cases i
      · exact ⟨⟨MatType.CV_32FC1, 6, 10⟩, [], ⟨MatType.CV_32FC1, 6, 10⟩, 2,
          (⟨MatType.CV_8UC3, 6, 10⟩, []), rfl, rfl, rfl, rfl, by decide⟩
      · exact ⟨⟨MatType.CV_32FC1, 12, 20⟩, [], ⟨MatType.CV_32FC1, 12, 20⟩, 4,
          (⟨MatType.CV_8UC3, 12, 20⟩, []), rfl, rfl, rfl, rfl, by decide⟩)

/-- C5: when no network is loaded (`net.empty()`), for every image, algorithm name and scale,
`upsample` leaves the output image unchanged, leaves the object and with it the engine in the
state it had (no call into the engine), and reports "Model not specified". -/
theorem upsample_unloaded {M N : Type} (cv : Cv M N) (self : DnnSuperResImpl N)
    (img img_new : M) (hempty : cv.netEmpty self.net = true) :
    upsample cv self img img_new =
      some (img_new, self, ["Model not specified. Please set model via setModel(). \n"]) := by
  simp [upsample, hempty]

/-- C5 on the header-level primitives, for an engine without a model and the algorithm
`espcn`. -/
theorem upsample_unloaded_witness :
    upsample headerCv ⟨⟨false, 2, [], none, 0⟩, "espcn", 2⟩ ⟨MatType.CV_8UC3, 3, 5⟩
        ⟨MatType.CV_8UC1, 7, 7⟩ =
      some (⟨MatType.CV_8UC1, 7, 7⟩, ⟨⟨false, 2, [], none, 0⟩, "espcn", 2⟩,
        ["Model not specified. Please set model via setModel(). \n"]) :=
  upsample_unloaded headerCv ⟨⟨false, 2, [], none, 0⟩, "espcn", 2⟩ ⟨MatType.CV_8UC3, 3, 5⟩
    ⟨MatType.CV_8UC1, 7, 7⟩ rfl

/-- C6, counterexample: with a 1-channel float reference of size 2×2, the scale 2 and a
network output of size 3×3 (not 4×4), `reconstruct_YCrCb` returns a 3×3 8-bit image: the
1-channel branch does not look at the size of the reference or at the scale. -/
theorem reconstruct_gray_counterexample :
    headerCv.type ⟨MatType.CV_32FC1, 2, 2⟩ = MatType.CV_32FC1 ∧
    (headerCv.rows ⟨MatType.CV_32FC1, 3, 3⟩ : Int) ≠
      2 * headerCv.rows ⟨MatType.CV_32FC1, 2, 2⟩ ∧
    reconstruct_YCrCb headerCv ⟨MatType.CV_32FC1, 3, 3⟩ ⟨MatType.CV_32FC1, 2, 2⟩
        headerCv.emptyMat 2 = some (⟨MatType.CV_8UC1, 3, 3⟩, []) := by
  decide

/-- C6, amended: for a 3-channel float reference image, every scale factor and every network
output whose size differs from the scale times the size of the reference, `reconstruct_YCrCb`
fails (the resized chroma planes and the network output do not pass `merge`). For a 1-channel
float reference there is no merge and no size check: the result is the network output
converted to 8 bits with the factor 255, whatever its size. -/
theorem reconstruct_size_check {M N : Type} (cv : Cv M N) (hc : CvContract cv)
    (inpImg origImg outImg : M) (scale : Int) :
    (cv.type origImg = MatType.CV_32FC3 →
      ((cv.rows inpImg : Int) ≠ scale * cv.rows origImg ∨
        (cv.cols inpImg : Int) ≠ scale * cv.cols origImg) →
      reconstruct_YCrCb cv inpImg origImg outImg scale = none) ∧
    (cv.type origImg = MatType.CV_32FC1 →
      reconstruct_YCrCb cv inpImg origImg outImg scale =
        (cv.convertTo inpImg Depth.CV_8U 255.0).map (fun r => (r, []))) := by
  constructor
  · intro ht hmis
    rw [Option.eq_none_iff_forall_not_mem]
    intro res hres
    simp only [reconstruct_YCrCb, ht, if_true, Option.mem_def, Option.bind_eq_bind,
      Option.bind_eq_some] at hres
    obtain ⟨chans, hchans, Cr, hCr, Cb, _, merged, hmerge, _⟩ := hres
    simp only [splitInto3, Option.bind_eq_bind, Option.bind_eq_some] at hchans
    obtain ⟨mv, hmv, hmv2⟩ := hchans
    have hlen := hc.split_length origImg mv ht hmv
    simp only [hlen, le_refl, if_true, Nat.sub_self, List.replicate_zero, List.append_nil,
      Option.some.injEq] at hmv2
    subst hmv2
    have h1 : 1 < mv.length := by omega
    have hmem : mv.getD 1 cv.emptyMat ∈ mv := by
      rw [List.getD_eq_getElem _ _ h1]
      exact List.getElem_mem h1
    obtain ⟨hr1, hc1⟩ := hc.split_size origImg mv _ hmv hmem
    obtain ⟨hr2, hc2⟩ := hc.resize_size _ scale scale Cr hCr
    obtain ⟨hr3, hc3⟩ := hc.merge_size _ merged hmerge inpImg (by simp) Cr (by simp)
    rw [hr1] at hr2
    rw [hc1] at hc2
    rw [hr3, hc3] at hmis
    rcases hmis with h | h
    · exact h hr2
    · exact h hc2
  · intro ht
    have hne : cv.type origImg ≠ MatType.CV_32FC3 := by rw [ht]; decide
    simp only [reconstruct_YCrCb, hne, ht, if_true, if_false]
    cases cv.convertTo inpImg Depth.CV_8U 255.0 <;> rfl

/-- C6 amended, on the header-level primitives: with the scale 2 and a 3×3 network output,
a 3-channel 2×2 reference makes `reconstruct_YCrCb` fail, a 1-channel 2×2 reference does
not. -/
theorem reconstruct_size_check_witness :
    CvContract headerCv ∧
    (headerCv.rows ⟨MatType.CV_32FC1, 3, 3⟩ : Int) ≠
      2 * headerCv.rows ⟨MatType.CV_32FC3, 2, 2⟩ ∧
    reconstruct_YCrCb headerCv ⟨MatType.CV_32FC1, 3, 3⟩ ⟨MatType.CV_32FC3, 2, 2⟩
      headerCv.emptyMat 2 = none ∧
    reconstruct_YCrCb headerCv ⟨MatType.CV_32FC1, 3, 3⟩ ⟨MatType.CV_32FC1, 2, 2⟩
      headerCv.emptyMat 2 =
      (headerCv.convertTo ⟨MatType.CV_32FC1, 3, 3⟩ Depth.CV_8U 255.0).map (fun r => (r, [])) :=
  ⟨headerCv_contract, by decide,
    (reconstruct_size_check headerCv headerCv_contract ⟨MatType.CV_32FC1, 3, 3⟩
      ⟨MatType.CV_32FC3, 2, 2⟩ headerCv.emptyMat 2).1 rfl (Or.inl (by decide)),
    (reconstruct_size_check headerCv headerCv_contract ⟨MatType.CV_32FC1, 3, 3⟩
      ⟨MatType.CV_32FC1, 2, 2⟩ headerCv.emptyMat 2).2 rfl⟩

/-! ## The round trip of a single-channel 8-bit image -/

/-- A sample `x` in `0..255`, scaled by the float `1/255`, scaled back by `255` and rounded to a
nearest integer, is `x` again. -/
theorem roundtrip_sample (fl : ℚ → ℚ) (hfl : ∀ q, |fl q - q| ≤ |q| / 2 ^ 24) (x : ℕ)
    (hx : x ≤ 255) (n : ℤ)
    (hn : |(n : ℚ) - fl (fl ((x : ℚ) * fl (1 / 255)) * 255)| ≤ 1 / 2) :
    n = (x : ℤ) := by
  have hx0 : (0 : ℚ) ≤ x := Nat.cast_nonneg x
  have hx1 : (x : ℚ) ≤ 255 := by exact_mod_cast hx
  have ha := hfl (1 / 255)
  rw [abs_of_pos (by norm_num : (0 : ℚ) < 1 / 255), abs_le] at ha
  obtain ⟨ha1, ha2⟩ := ha
  -- the product x * a
  have ht1 : (x : ℚ) / 255 - 1 / 2 ^ 24 ≤ x * fl (1 / 255) := by
    nlinarith [mul_nonneg hx0 (by linarith : (0 : ℚ) ≤ fl (1 / 255) - 1 / 255 + 1 / 255 / 2 ^ 24)]
  have ht2 : (x : ℚ) * fl (1 / 255) ≤ x / 255 + 1 / 2 ^ 24 := by
    nlinarith [mul_nonneg hx0 (by linarith : (0 : ℚ) ≤ 1 / 255 / 2 ^ 24 - (fl (1 / 255) - 1 / 255))]
  have htabs : |(x : ℚ) * fl (1 / 255)| ≤ 2 := by
    rw [abs_le]; constructor <;> norm_num at ht1 ht2 ⊢ <;> linarith
  have hp := hfl ((x : ℚ) * fl (1 / 255))
  have hp' : |fl ((x : ℚ) * fl (1 / 255)) - x * fl (1 / 255)| ≤ 2 / 2 ^ 24 := by
    refine le_trans hp ?_
    exact div_le_div_of_nonneg_right htabs (by norm_num)
  rw [abs_le] at hp'
  obtain ⟨hp1, hp2⟩ := hp'
  have hqabs : |fl ((x : ℚ) * fl (1 / 255)) * 255| ≤ 256 := by
    rw [abs_le]; constructor <;> norm_num at ht1 ht2 hp1 hp2 ⊢ <;> linarith
  have hz := hfl (fl ((x : ℚ) * fl (1 / 255)) * 255)
  have hz' : |fl (fl ((x : ℚ) * fl (1 / 255)) * 255) - fl ((x : ℚ) * fl (1 / 255)) * 255|
      ≤ 256 / 2 ^ 24 := by
    refine le_trans hz ?_
    exact div_le_div_of_nonneg_right hqabs (by norm_num)
  rw [abs_le] at hz' hn
  obtain ⟨hz1, hz2⟩ := hz'
  obtain ⟨hn1, hn2⟩ := hn
  have h1 : ((n - (x : ℤ) : ℤ) : ℚ) < 1 := by
    push_cast
    norm_num at ht1 ht2 hp1 hp2 hz1 hz2 hn1 hn2 ⊢
    linarith
  have h2 : (-1 : ℚ) < ((n - (x : ℤ) : ℤ) : ℚ) := by
    push_cast
    norm_num at ht1 ht2 hp1 hp2 hz1 hz2 hn1 hn2 ⊢
    linarith
  have h1' : n - (x : ℤ) < 1 := by exact_mod_cast h1
  have h2' : -1 < n - (x : ℤ) := by exact_mod_cast h2
  omega

/-- The samples of a converted single-channel image are the converted samples. -/
theorem grayPix_map (d d' : Depth) (data : List ℚ) (i : Nat) :
    (data.map (graySample d d')).getD i 0 = graySample d d' (data.getD i 0) := by
  have h0 : graySample d d' 0 = 0 := by
    cases d <;> cases d' <;> simp [graySample]
  by_cases hi : i < data.length
  · simp [List.getD_eq_getElem?_getD, List.getElem?_eq_getElem, hi]
  · simp [List.getD_eq_getElem?_getD, List.getElem?_eq_none, Nat.le_of_not_lt hi, h0]

/-- The pixel-level instance in exact arithmetic satisfies the contract of `convertTo`. -/
theorem grayCv_contract : ConvertContract grayCv grayPix (fun q => q) := by
  refine ⟨?_, ?_, ?_, ?_, ?_⟩
  · intro q
    simp only [sub_self, abs_zero]
    positivity
  · intro m d a
    exact ⟨_, rfl⟩
  · intro m d a r h
    simp only [grayCv, Option.some.injEq] at h
    rw [← h]
    refine ⟨?_, rfl, rfl⟩
    show withDepth MatType.CV_8UC1 d = withDepth (withDepth MatType.CV_8UC1 m.depth) d
    cases m.depth <;> cases d <;> rfl
  · intro m r i ht h _
    have hd : m.depth = Depth.CV_8U := by
      have ht' : withDepth MatType.CV_8UC1 m.depth = MatType.CV_8UC1 := ht
      cases hm : m.depth
      · rfl
      · rw [hm] at ht'; exact absurd ht' (by decide)
    simp only [grayCv, Option.some.injEq] at h
    rw [← h]
    show (m.data.map (graySample m.depth Depth.CV_32F)).getD i 0 = _
    rw [grayPix_map, hd]
    rfl
  · intro m r i ht h _
    have hd : m.depth = Depth.CV_32F := by
      have ht' : withDepth MatType.CV_8UC1 m.depth = MatType.CV_32FC1 := ht
      cases hm : m.depth
      · rw [hm] at ht'; exact absurd ht' (by decide)
      · rfl
    simp only [grayCv, Option.some.injEq] at h
    rw [← h]
    refine ⟨round (grayPix m i * 255), ?_, ?_⟩
    · rw [abs_sub_comm]
      exact abs_sub_round _
    · show (m.data.map (graySample m.depth Depth.CV_8U)).getD i 0 = _
      rw [grayPix_map, hd]
      rfl

/-- C8: for every 1-channel 8-bit image `img` (samples in `0..255`), with `convertTo` as the
spec describes it, `preprocess_YCrCb` returns a float image `pre`, `reconstruct_YCrCb` applied
to `pre` with the reference `pre` and the scale `1` returns an 8-bit image of the size of
`img`, and every pixel of it differs from the corresponding pixel of `img` by at most one
level. -/
theorem roundtrip_gray {M N : Type} (cv : Cv M N) (pix : M → Nat → ℚ) (fl : ℚ → ℚ)
    (hc : ConvertContract cv pix fl) (img outImg : M)
    (ht : cv.type img = MatType.CV_8UC1)
    (hpix : ∀ i, i < cv.rows img * cv.cols img → ∃ n : ℕ, n ≤ 255 ∧ pix img i = n) :
    ∃ pre out, preprocess_YCrCb cv img cv.emptyMat = some (pre, []) ∧
      reconstruct_YCrCb cv pre pre outImg 1 = some (out, []) ∧
      cv.type out = MatType.CV_8UC1 ∧ cv.rows out = cv.rows img ∧
      cv.cols out = cv.cols img ∧
      ∀ i, i < cv.rows img * cv.cols img → |pix out i - pix img i| ≤ 1 := by
  obtain ⟨pre, hpre⟩ := hc.returns img Depth.CV_32F (1.0 / 255.0)
  obtain ⟨tp, rp, cp⟩ := hc.shape img _ _ pre hpre
  have tp' : cv.type pre = MatType.CV_32FC1 := by rw [tp, ht]; rfl
  obtain ⟨out, hout⟩ := hc.returns pre Depth.CV_8U 255.0
  obtain ⟨tout, ro, co⟩ := hc.shape pre _ _ out hout
  have hne : cv.type pre ≠ MatType.CV_32FC3 := by rw [tp']; decide
  refine ⟨pre, out, ?_, ?_, ?_, by rw [ro, rp], by rw [co, cp], ?_⟩
  · simp [preprocess_YCrCb, ht, hpre]
  · simp [reconstruct_YCrCb, hne, tp', hout]
  · rw [tout, tp']; rfl
  · intro i hi
    obtain ⟨x, hx, hxi⟩ := hpix i hi
    have h32 := hc.to32F img pre i ht hpre hi
    obtain ⟨n, hn, h8⟩ := hc.to8U pre out i tp' hout (by rw [rp, cp]; exact hi)
    rw [h32, hxi] at hn
    have hnx := roundtrip_sample fl hc.fl_error x hx n hn
    have hx1 : (x : ℚ) ≤ 255 := by exact_mod_cast hx
    have hx0 : (0 : ℚ) ≤ x := Nat.cast_nonneg x
    rw [h8, hxi, hnx]
    simp only [Int.cast_natCast]
    rw [min_eq_right hx1, max_eq_right hx0, sub_self, abs_zero]
    norm_num

/-- C8 on the pixel-level instance in exact arithmetic: the 1×2 image with the samples `0` and
`200`. -/
theorem roundtrip_gray_witness :
    ConvertContract grayCv grayPix (fun q => q) ∧
    grayCv.type ⟨Depth.CV_8U, 1, 2, [0, 200]⟩ = MatType.CV_8UC1 ∧
    ∃ pre out,
      preprocess_YCrCb grayCv ⟨Depth.CV_8U, 1, 2, [0, 200]⟩ grayCv.emptyMat = some (pre, []) ∧
      reconstruct_YCrCb grayCv pre pre grayCv.emptyMat 1 = some (out, []) ∧
      grayCv.type out = MatType.CV_8UC1 ∧
      grayCv.rows out = grayCv.rows ⟨Depth.CV_8U, 1, 2, [0, 200]⟩ ∧
      grayCv.cols out = grayCv.cols ⟨Depth.CV_8U, 1, 2, [0, 200]⟩ ∧
      ∀ i, i < grayCv.rows ⟨Depth.CV_8U, 1, 2, [0, 200]⟩ *
          grayCv.cols ⟨Depth.CV_8U, 1, 2, [0, 200]⟩ →
        |grayPix out i - grayPix ⟨Depth.CV_8U, 1, 2, [0, 200]⟩ i| ≤ 1 :=
  ⟨grayCv_contract, rfl,
    roundtrip_gray grayCv grayPix (fun q => q) grayCv_contract ⟨Depth.CV_8U, 1, 2, [0, 200]⟩
      grayCv.emptyMat rfl (fun i hi => by
        have hi2 : i < 2 := hi
        interval_cases i
        · exact ⟨0, by decide, by simp [grayPix]⟩
        · exact ⟨200, by decide, by simp [grayPix]⟩)⟩

end DnnSuperRes
